import Mathlib

/-!
Shallow embedding of the `CanvasLayer` class from
`src/src/leaflet-markers-canvas.ts` (the leaflet-canvasify repository).

Modelling choices, in correspondence with the source:

* JS numbers used for coordinates and pixels are modelled as `Int`
  (the claims under verification do not depend on fractional values);
  the 32-bit coercions that JS bitwise operators perform inside
  `_generateDynamicHexcode` are modelled explicitly with `toInt32`.
* The mutable fields of the class become the fields of `EngineState`:
  `_layers` (an object keyed by `_leaflet_id`, modelled as an
  association list), `_markersTree` and `_positionsTree` (RBush trees,
  modelled as lists of boxes: `load` appends, `search` filters by box
  intersection, `remove` deletes the first entry accepted by the
  equality predicate, which in the source compares `_leaflet_id`),
  `_icons` (association list keyed by URL), `_colorMap`, and the
  per-marker mutable field `marker.image` (an engine-side association
  list `markerImages` from marker id to the URL whose shared image
  object was assigned).
* Observable effects that the claims talk about are recorded in trace
  fields: `draws` (one entry per `_drawImage` invocation, recording the
  marker id, the pixel position passed, and the marker's icon URL),
  `loadsStarted` (one entry per `new Image()` fetch), `errorsLogged`
  (one entry per `console.error` call, as a structured `LogEntry`), and
  `redrawCount` (one increment per `redraw` invocation).
* JS exceptions (`throw new Error(...)`) are modelled by
  `Except String`; a function returns the state as mutated up to the
  throw point, and callers short-circuit exactly where the exception
  would propagate in JS.
* The asynchronous `image.onload` / `image.onerror` callbacks become
  the events `Ev.load` / `Ev.fail`; the browser fires at most one of
  them per created image, which theorems reflect as hypotheses on
  event sequences.
* The map host is a `MapView`: the current geographic bounds plus the
  `latLngToContainerPoint` projection, an arbitrary function. Canvas
  pixel output, indicator badges and the hover dispatcher mutate no
  state the claims mention and are not modelled beyond the traces.
-/

namespace CanvasLayer

/-- Association-list lookup with decidable key equality, modelling JS
object / record indexing `obj[key]`. -/
def lookupA {α β : Type} [DecidableEq α] (k : α) : List (α × β) → Option β
  | [] => none
  | (k0, v0) :: rest => if k0 = k then some v0 else lookupA k rest

/-- Association-list update `obj[key] = v`: replaces the binding in place
when the key is present, appends otherwise (JS objects keep insertion
order on assignment to an existing key). -/
def setKey {α β : Type} [DecidableEq α] : List (α × β) → α → β → List (α × β)
  | [], k, v => [(k, v)]
  | (k0, v0) :: rest, k, v =>
    if k0 = k then (k0, v) :: rest else (k0, v0) :: setKey rest k v

/-- Icon descriptor: `marker.options.icon.options` with its optional
`iconUrl`, `iconSize` and `iconAnchor`. -/
structure Icon where
  url : Option String
  iconSize : Option (Int × Int)
  iconAnchor : Option (Int × Int)
deriving DecidableEq, Repr

/-- Marker as the engine sees it: `_leaflet_id`, immutable geographic
position, `options.pane` and `options.icon`. -/
structure Marker where
  id : Nat
  lat : Int
  lng : Int
  pane : String
  icon : Option Icon
deriving DecidableEq, Repr

/-- The `marker.options.icon?.options.iconUrl` optional chain. -/
def iconUrlOf (m : Marker) : Option String :=
  m.icon.bind Icon.url

/-- RBush entry (`RBushBox`): a bounding box plus its marker back
reference. -/
structure Box where
  minX : Int
  minY : Int
  maxX : Int
  maxY : Int
  marker : Marker
deriving DecidableEq, Repr

/-- Query rectangle for RBush `search`. -/
structure QueryBox where
  minX : Int
  minY : Int
  maxX : Int
  maxY : Int
deriving DecidableEq, Repr

/-- RBush box intersection test used by `search`. -/
def boxIntersects (q : QueryBox) (b : Box) : Bool :=
  decide (b.minX ≤ q.maxX ∧ q.minX ≤ b.maxX ∧ b.minY ≤ q.maxY ∧ q.minY ≤ b.maxY)

/-- Queued draw request inside an icon cache entry: the marker and the
screen position captured at request time. -/
structure QElem where
  marker : Marker
  x : Int
  y : Int
deriving DecidableEq, Repr

/-- One entry of `_icons`: load flag, sticky error flag, pending queue.
The shared `image` object is identified by the URL key itself. -/
structure IconEntry where
  isLoaded : Bool
  hasErrored : Bool
  elements : List QElem
deriving DecidableEq, Repr

/-- One `console.error` call. -/
inductive LogEntry where
  | notAMarker
  | imageLoadError (u : String)
deriving DecidableEq, Repr

/-- One `_drawImage` invocation: marker id, the pixel position passed,
and the marker's icon URL (identifying the image being drawn). -/
structure DrawEvent where
  markerId : Nat
  x : Int
  y : Int
  url : String
deriving DecidableEq, Repr

/-- Map host: current geographic bounds (`map.getBounds()`) and the
`latLngToContainerPoint` projection. -/
structure MapView where
  west : Int
  south : Int
  east : Int
  north : Int
  proj : Int → Int → Int × Int

/-- Inclusion test `map.getBounds().contains(latLng)`: inclusive on all edges. -/
def viewContains (v : MapView) (lat lng : Int) : Bool :=
  decide (v.south ≤ lat ∧ lat ≤ v.north ∧ v.west ≤ lng ∧ lng ≤ v.east)

/-- The viewport rectangle `mapBoundsBox` built inside `redraw`. -/
def queryBoxOfView (v : MapView) : QueryBox :=
  ⟨v.west, v.south, v.east, v.north⟩

/-- Full mutable state of a `CanvasLayer` instance, plus observation
traces for its externally visible effects. -/
structure EngineState where
  map : Option MapView
  layers : List (Nat × Marker)
  markersTree : List Box
  positionsTree : List Box
  icons : List (String × IconEntry)
  colorMap : List (String × String)
  markerImages : List (Nat × String)
  addBackground : Bool
  draws : List DrawEvent
  loadsStarted : List String
  errorsLogged : List LogEntry
  redrawCount : Nat

/-- ToInt32 coercion performed by JS bitwise operators. -/
def toInt32 (n : Int) : Int :=
  (n + 2147483648).emod 4294967296 - 2147483648

/-- JS `hash << 5` (shift of the int32 coercion, wrapping to int32). -/
def jsShl5 (h : Int) : Int :=
  toInt32 (toInt32 h * 32)

/-- Accumulator step of the rolling hash:
`hash = char.charCodeAt(0) + ((hash << 5) - hash)`. -/
def hashStep (h : Int) (c : Char) : Int :=
  (c.toNat : Int) + (jsShl5 h - h)

/-- The unsigned 32-bit representative of the final hash, from which
`(hash >> (i * 8)) & 0xff` extracts bytes (the mask keeps only bits
`8i .. 8i+7`, so the arithmetic shift's sign fill is irrelevant for
`i < 3`). -/
def toUnsigned32 (h : Int) : Nat :=
  (h.emod 4294967296).toNat

/-- Lowercase hex digit, as produced by JS `Number.prototype.toString(16)`. -/
def hexDigit (n : Nat) : Char :=
  if n < 10 then Char.ofNat (48 + n) else Char.ofNat (87 + n)

/-- Rendering `value.toString(16).padStart(2, "0")` of a byte value. -/
def hexByte (n : Nat) : String :=
  String.mk [hexDigit (n / 16 % 16), hexDigit (n % 16)]

/-- Source method `_generateDynamicHexcode`: polynomial rolling hash of the string,
truncated to three bytes rendered as a hex triplet. -/
def generateDynamicHexcode (s : String) : String :=
  let hash := s.data.foldl hashStep 0
  let h32 := toUnsigned32 hash
  "#" ++ hexByte (h32 % 256) ++ hexByte (h32 / 256 % 256) ++ hexByte (h32 / 65536 % 256)

/-- The `_colorMap` memoization in `_drawImage`:
`let color = this._colorMap[imgSrc]; if (!color) { color = generate; store }`
(a missing binding and an empty string are both falsy). -/
def getColor (cm : List (String × String)) (src : String) :
    String × List (String × String) :=
  match lookupA src cm with
  | some c =>
    if c = "" then (generateDynamicHexcode src, setKey cm src (generateDynamicHexcode src))
    else (c, cm)
  | none => (generateDynamicHexcode src, setKey cm src (generateDynamicHexcode src))

/-- Reading `this._icons[iconUrl]?.hasErrored` (optional chaining: a missing
entry reads as falsy). -/
def hasErroredFor (st : EngineState) (u : String) : Bool :=
  match lookupA u st.icons with
  | some e => e.hasErrored
  | none => false

/-- Source method `_drawImage`: checks icon options, anchor, size and `marker.image`
(throwing when absent), memoizes the halo color when `addBackground`
is set, and performs the canvas draw — recorded as one `DrawEvent`. -/
def drawImage (st : EngineState) (m : Marker) (x y : Int) :
    EngineState × Except String Unit :=
  match m.icon with
  | none => (st, .error "ERROR: Marker icon options are undefined.")
  | some ic =>
    match ic.iconAnchor, ic.iconSize, lookupA m.id st.markerImages with
    | some _, some _, some imgSrc =>
      if st.addBackground then
        ({ st with
            colorMap := (getColor st.colorMap imgSrc).2,
            draws := st.draws ++ [⟨m.id, x, y, (iconUrlOf m).getD ""⟩] }, .ok ())
      else
        ({ st with draws := st.draws ++ [⟨m.id, x, y, (iconUrlOf m).getD ""⟩] }, .ok ())
    | _, _, _ => (st, .error "ERROR: One or more icon options properties are undefined.")

/-- Source method `_drawMarker`: resolves the icon URL (throwing when undefined) and
dispatches on the cache: draw through an already assigned image unless
the URL has errored; join an existing entry (assigning the shared
image, drawing when loaded, queueing while pending); or create a fresh
pending entry and start the one asynchronous load. -/
def drawMarker (st : EngineState) (m : Marker) (x y : Int) :
    EngineState × Except String Unit :=
  match iconUrlOf m with
  | none => (st, .error "ERROR: The icon or its url are undefined.")
  | some u =>
    match lookupA m.id st.markerImages with
    | some _ =>
      if hasErroredFor st u then (st, .ok ()) else drawImage st m x y
    | none =>
      match lookupA u st.icons with
      | some entry =>
        if entry.hasErrored then (st, .ok ())
        else if entry.isLoaded then
          drawImage { st with markerImages := setKey st.markerImages m.id u } m x y
        else
          ({ st with
              markerImages := setKey st.markerImages m.id u,
              icons := setKey st.icons u
                { entry with elements := entry.elements ++ [⟨m, x, y⟩] } }, .ok ())
      | none =>
        ({ st with
            markerImages := setKey st.markerImages m.id u,
            loadsStarted := st.loadsStarted ++ [u],
            icons := setKey st.icons u ⟨false, false, [⟨m, x, y⟩]⟩ }, .ok ())

/-- Source method `addMarker`: rejects with a `console.error` log when the pane is
wrong or the icon is missing; no-ops without a map; throws when the
icon anchor or size is undefined; otherwise draws immediately when
visible, registers the marker in `_layers`, and returns the marker box,
the position box and the visibility flag (it does not touch either
tree itself). -/
def addMarker (st : EngineState) (m : Marker) :
    EngineState × Except String (Option (Box × Box × Bool)) :=
  if m.pane ≠ "markerPane" ∨ m.icon = none then
    ({ st with errorsLogged := st.errorsLogged ++ [.notAMarker] }, .ok none)
  else
    match st.map, m.icon with
    | none, _ => (st, .ok none)
    | some v, some ic =>
      match ic.iconAnchor, ic.iconSize with
      | some a, some s =>
        let p := v.proj m.lat m.lng
        let mb : Box := ⟨p.1 - a.1, p.2 - a.2, p.1 + s.1 - a.1, p.2 + s.2 - a.2, m⟩
        let pb : Box := ⟨m.lng, m.lat, m.lng, m.lat, m⟩
        let vis := viewContains v m.lat m.lng
        match (if vis then drawMarker st m p.1 p.2 else (st, .ok ())) with
        | (st1, .ok _) =>
          ({ st1 with layers := setKey st1.layers m.id m }, .ok (some (mb, pb, vis)))
        | (st1, .error e) => (st1, .error e)
      | _, _ =>
        (st, .error "ERROR: One or more icon options properties are undefined.")
    | some _, none => (st, .ok none)

/-- Loop body of `addMarkers`: collects the marker boxes of visible
markers and all position boxes, aborting on a thrown exception. -/
def addMarkersLoop (st : EngineState) :
    List Marker → List Box → List Box →
    EngineState × List Box × List Box × Except String Unit
  | [], mbs, pbs => (st, mbs, pbs, .ok ())
  | m :: rest, mbs, pbs =>
    match addMarker st m with
    | (st1, .error e) => (st1, mbs, pbs, .error e)
    | (st1, .ok none) => addMarkersLoop st1 rest mbs pbs
    | (st1, .ok (some (mb, pb, vis))) =>
      addMarkersLoop st1 rest (if vis then mbs ++ [mb] else mbs) (pbs ++ [pb])

/-- Source method `addMarkers`: runs `addMarker` on each marker, then bulk-loads the
collected boxes into `_markersTree` and `_positionsTree` (skipped
entirely when an exception aborts the loop). -/
def addMarkers (st : EngineState) (ms : List Marker) :
    EngineState × Except String Unit :=
  match addMarkersLoop st ms [] [] with
  | (st1, mbs, pbs, .ok _) =>
    ({ st1 with
        markersTree := st1.markersTree ++ mbs,
        positionsTree := st1.positionsTree ++ pbs }, .ok ())
  | (st1, _, _, .error e) => (st1, .error e)

/-- RBush `remove(positionBox, (a, b) => a.marker._leaflet_id ===
b.marker._leaflet_id)`: deletes the first entry whose marker id matches
(entry coordinates always coincide with the probe box in reachable
states, since marker positions are immutable). -/
def removeFirstById : List Box → Nat → List Box
  | [], _ => []
  | b :: rest, i => if b.marker.id = i then rest else b :: removeFirstById rest i

/-- Loop body of `redraw`: for each found entry, recompute the screen
point, rebuild the marker box (throwing when icon data is missing) and
draw; accumulates the boxes for the `_markersTree` rebuild. -/
def redrawLoop (v : MapView) :
    EngineState → List Box → List Box →
    EngineState × List Box × Except String Unit
  | st, acc, [] => (st, acc, .ok ())
  | st, acc, b :: rest =>
    match b.marker.icon with
    | none => (st, acc, .error "ERROR: Marker icon or its options are undefined.")
    | some ic =>
      match ic.iconSize, ic.iconAnchor with
      | some s, some a =>
        let p := v.proj b.marker.lat b.marker.lng
        let mb : Box :=
          ⟨p.1 - a.1, p.2 - a.2, p.1 + s.1 - a.1, p.2 + s.2 - a.2, b.marker⟩
        match drawMarker st b.marker p.1 p.2 with
        | (st1, .ok _) => redrawLoop v st1 (acc ++ [mb]) rest
        | (st1, .error e) => (st1, acc, .error e)
      | _, _ =>
        (st, acc, .error "ERROR: One or more icon options properties are undefined.")

/-- Source method `redraw(clear)`: no-op without a map; otherwise queries
`_positionsTree` with the viewport rectangle, draws every found marker,
and replaces the whole `_markersTree` with the boxes of the markers
just drawn (`clear()` then `load(markers)`); the canvas `clearRect` has
no modelled state. Each invocation bumps `redrawCount`. -/
def redraw (st : EngineState) (_clearFlag : Bool) :
    EngineState × Except String Unit :=
  let st0 := { st with redrawCount := st.redrawCount + 1 }
  match st0.map with
  | none => (st0, .ok ())
  | some v =>
    match redrawLoop v st0 []
        (st0.positionsTree.filter (fun b => boxIntersects (queryBoxOfView v) b)) with
    | (st1, acc, .ok _) => ({ st1 with markersTree := acc }, .ok ())
    | (st1, _, .error e) => (st1, .error e)

/-- Source method `removeMarker`: no-op without a map; removes the marker's entry
from `_positionsTree` by id equality and forces `redraw(true)` exactly
when the marker's position is inside the current viewport. `_layers`
is not touched. -/
def removeMarker (st : EngineState) (m : Marker) :
    EngineState × Except String Unit :=
  match st.map with
  | none => (st, .ok ())
  | some v =>
    let st1 := { st with positionsTree := removeFirstById st.positionsTree m.id }
    if viewContains v m.lat m.lng then redraw st1 true else (st1, .ok ())

/-- Loop body of `removeMarkers`: removes each entry and accumulates
the `hasChanged` flag. -/
def removeLoop (v : MapView) :
    List Box → Bool → List Marker → List Box × Bool
  | t, changed, [] => (t, changed)
  | t, changed, m :: rest =>
    removeLoop v (removeFirstById t m.id) (changed || viewContains v m.lat m.lng) rest

/-- Source method `removeMarkers`: batch removal with a single conditional redraw. -/
def removeMarkers (st : EngineState) (ms : List Marker) :
    EngineState × Except String Unit :=
  match st.map with
  | none => (st, .ok ())
  | some v =>
    match removeLoop v st.positionsTree false ms with
    | (t, changed) =>
      let st1 := { st with positionsTree := t }
      if changed then redraw st1 true else (st1, .ok ())

/-- Source method `getAllMarkers`: returns `_layers`. -/
def getAllMarkers (st : EngineState) : List (Nat × Marker) :=
  st.layers

/-- Geographic bounding rectangle (`L.LatLngBounds`). -/
structure BRect where
  south : Int
  west : Int
  north : Int
  east : Int
deriving DecidableEq, Repr

/-- Leaflet `bounds.extend(latLng)` starting from a possibly empty bounds. -/
def extendB : Option BRect → Int → Int → Option BRect
  | none, lat, lng => some ⟨lat, lng, lat, lng⟩
  | some r, lat, lng =>
    some ⟨min r.south lat, min r.west lng, max r.north lat, max r.east lng⟩

/-- Source method `getBounds`: seeds the bounds from `_layers[0]` (empty bounds when
that key is absent, the usual case) and extends over every registered
marker. -/
def getBounds (st : EngineState) : Option BRect :=
  st.layers.foldl (fun b p => extendB b p.2.lat p.2.lng)
    ((lookupA 0 st.layers).map (fun m => ⟨m.lat, m.lng, m.lat, m.lng⟩))

/-- Source method `clear()`: fresh trees, empty `_layers` (the icon cache survives),
then `redraw(true)`. -/
def clearAll (st : EngineState) : EngineState × Except String Unit :=
  redraw { st with positionsTree := [], markersTree := [], layers := [] } true

/-- Flush loop of `image.onload`: draws every queued request at the
position recomputed from the marker's current latLng through the
current projection, aborting on a thrown exception. -/
def flushLoop (v : MapView) :
    EngineState → List QElem → EngineState × Except String Unit
  | st, [] => (st, .ok ())
  | st, e :: rest =>
    match drawImage st e.marker (v.proj e.marker.lat e.marker.lng).1
        (v.proj e.marker.lat e.marker.lng).2 with
    | (st1, .ok _) => flushLoop v st1 rest
    | (st1, .error err) => (st1, .error err)

/-- The `image.onload` handler for URL `u`: marks the entry loaded and
flushes its whole queue in order, recomputing each position at flush
time (the queue is kept; the source never empties `elements`). -/
def fireLoad (st : EngineState) (u : String) : EngineState × Except String Unit :=
  match lookupA u st.icons with
  | none => (st, .error "no cache entry for url")
  | some entry =>
    let st1 := { st with icons := setKey st.icons u { entry with isLoaded := true } }
    match st1.map with
    | none => (st1, .error "no map")
    | some v => flushLoop v st1 entry.elements

/-- The `image.onerror` handler for URL `u`: sets the sticky
`hasErrored` flag and reports one diagnostic. -/
def fireError (st : EngineState) (u : String) : EngineState × Except String Unit :=
  match lookupA u st.icons with
  | none => (st, .error "no cache entry for url")
  | some entry =>
    ({ st with
        icons := setKey st.icons u { entry with hasErrored := true },
        errorsLogged := st.errorsLogged ++ [.imageLoadError u] }, .ok ())

/-- External events driving the engine: the public API calls, a
viewport change, and the asynchronous load/error completions. -/
inductive Ev where
  | addOne (m : Marker)
  | addMany (ms : List Marker)
  | removeOne (m : Marker)
  | removeMany (ms : List Marker)
  | redrawEv (b : Bool)
  | clearEv
  | setView (v : MapView)
  | load (u : String)
  | fail (u : String)

/-- One step of the engine; a JS exception propagates to the caller
while the state mutated so far persists. -/
def step (st : EngineState) : Ev → EngineState
  | .addOne m => (addMarker st m).1
  | .addMany ms => (addMarkers st ms).1
  | .removeOne m => (removeMarker st m).1
  | .removeMany ms => (removeMarkers st ms).1
  | .redrawEv b => (redraw st b).1
  | .clearEv => (clearAll st).1
  | .setView v => { st with map := some v }
  | .load u => (fireLoad st u).1
  | .fail u => (fireError st u).1

/-- Run a sequence of events. -/
def run (st : EngineState) (evs : List Ev) : EngineState :=
  evs.foldl step st

/-- A fresh attached layer: `onAdd` succeeded on map view `v`, with the
`addBackground` option. -/
def initState (v : MapView) (bg : Bool) : EngineState :=
  { map := some v, layers := [], markersTree := [], positionsTree := [],
    icons := [], colorMap := [], markerImages := [], addBackground := bg,
    draws := [], loadsStarted := [], errorsLogged := [], redrawCount := 0 }

/-- Marker validity as `addMarker` requires it for a log-free,
throw-free registration: correct pane and an icon carrying URL, anchor
and size. -/
def validMarker (m : Marker) : Bool :=
  m.pane == "markerPane" &&
    match m.icon with
    | some ic => ic.url.isSome && ic.iconAnchor.isSome && ic.iconSize.isSome
    | none => false

/-- Test fixture: a 41 by 41 viewport around the origin with a simple
linear projection. -/
def v0 : MapView :=
  { west := -10, south := -10, east := 10, north := 10,
    proj := fun lat lng => (lng + 100, 100 - lat) }

/-- Test fixture: a 32 by 32 icon anchored at its center. -/
def icon32 : Icon :=
  { url := some "a.png", iconSize := some (32, 32), iconAnchor := some (16, 16) }

/-- Test fixture: a visible, valid marker. -/
def m1 : Marker :=
  { id := 1, lat := 0, lng := 0, pane := "markerPane", icon := some icon32 }

/-- Test fixture: a second visible, valid marker sharing the icon URL. -/
def m2 : Marker :=
  { id := 2, lat := 1, lng := 1, pane := "markerPane", icon := some icon32 }

/-- Test fixture: a marker outside the viewport. -/
def m3 : Marker :=
  { id := 3, lat := 50, lng := 50, pane := "markerPane", icon := some icon32 }

/-- Marker data sufficient for `_drawImage` not to throw on the icon
option checks (anchor and size present). -/
def flushReadyMarker (m : Marker) : Bool :=
  match m.icon with
  | some ic => ic.iconAnchor.isSome && ic.iconSize.isSome
  | none => false

/-- The `DrawEvent` recorded by a `_drawImage` invocation. -/
def drawEventOf (m : Marker) (x y : Int) : DrawEvent :=
  ⟨m.id, x, y, (iconUrlOf m).getD ""⟩

/-- The geographic point box `positionBox` built by `addMarker`. -/
def posBoxOf (m : Marker) : Box := ⟨m.lng, m.lat, m.lng, m.lat, m⟩

/-- Sequential `_layers` registration performed by a loop of
`addMarker` calls. -/
def regAll (l : List (Nat × Marker)) : List Marker → List (Nat × Marker)
  | [] => l
  | m :: rest => regAll (setKey l m.id m) rest

/-- Recognizer for bulk-add events. -/
def addsOnly : Ev → Bool
  | .addMany _ => true
  | _ => false

/-- The markers an event hands to the engine. -/
def evMarkers : Ev → List Marker
  | .addMany ms => ms
  | _ => []

/-- Screen-space bounding box rebuilt by `redraw` for a marker (the
zero fallback is never reached for markers with icon data). -/
def screenBoxOf (v : MapView) (m : Marker) : Box :=
  match m.icon with
  | some ic =>
    match ic.iconAnchor, ic.iconSize with
    | some a, some s =>
      ⟨(v.proj m.lat m.lng).1 - a.1, (v.proj m.lat m.lng).2 - a.2,
       (v.proj m.lat m.lng).1 + s.1 - a.1, (v.proj m.lat m.lng).2 + s.2 - a.2, m⟩
    | _, _ => ⟨0, 0, 0, 0, m⟩
  | none => ⟨0, 0, 0, 0, m⟩

/-- Per-queued-element readiness for a throw-free flush: the marker has
anchor and size, and its shared image handle is assigned. -/
def flushReadyQ (st : EngineState) (e : QElem) : Prop :=
  flushReadyMarker e.marker = true ∧ (lookupA e.marker.id st.markerImages).isSome = true

instance (st : EngineState) (e : QElem) : Decidable (flushReadyQ st e) := by
  unfold flushReadyQ
  infer_instance

/-- The draw event recorded for a queued element when flushed under map
view `v`: the position is recomputed from the marker's current latLng
through the current projection, not taken from the stored `x`, `y`. -/
def flushDrawOf (v : MapView) (e : QElem) : DrawEvent :=
  drawEventOf e.marker (v.proj e.marker.lat e.marker.lng).1 (v.proj e.marker.lat e.marker.lng).2

/-- A sequence of `_drawMarker` requests. -/
def requestAll (st : EngineState) : List (Marker × Int × Int) → EngineState
  | [] => st
  | (m, x, y) :: rest => requestAll (drawMarker st m x y).1 rest

/-- The queue element recorded for a request. -/
def qElemOf (r : Marker × Int × Int) : QElem := ⟨r.1, r.2.1, r.2.2⟩

/-- Draw events recorded for markers whose icon URL is `U`. -/
def drawsFor (U : String) (st : EngineState) : List DrawEvent :=
  st.draws.filter (fun d => d.url == U)

/-- Diagnostics reported for the failed load of `U`. -/
def errorsFor (U : String) (st : EngineState) : List LogEntry :=
  st.errorsLogged.filter (fun l => l == LogEntry.imageLoadError U)

/-- Queue consistency: every queued element sits in the entry of its own
icon URL; `_drawMarker` establishes this by construction. -/
def QueueUrl (icons : List (String × IconEntry)) : Prop :=
  ∀ p ∈ icons, ∀ e ∈ p.2.elements, iconUrlOf e.marker = some p.1

instance (icons : List (String × IconEntry)) : Decidable (QueueUrl icons) := by
  unfold QueueUrl
  infer_instance

/-- Permanent consequences of an errored URL `U` across a state step:
queue consistency is maintained, the errored flag stays set, and
neither the `U` draw trace nor the `U` diagnostic trace grows. -/
def ErrPreserved (U : String) (st st2 : EngineState) : Prop :=
  QueueUrl st2.icons ∧ hasErroredFor st2 U = true ∧
    drawsFor U st2 = drawsFor U st ∧ errorsFor U st2 = errorsFor U st

/-- Recognizer for the load-completion event of URL `U`. -/
def isLoadOf (U : String) : Ev → Bool
  | .load u => u == U
  | _ => false

/-- Recognizer for the load-failure event of URL `U`. -/
def isFailOf (U : String) : Ev → Bool
  | .fail u => u == U
  | _ => false

/-- Test fixture: a second view with a shifted projection, standing for
the map after a pan during an asynchronous image load. -/
def v1 : MapView :=
  { west := -10, south := -10, east := 10, north := 10,
    proj := fun lat lng => (lng + 300, 300 - lat) }

/-- Test fixture: a marker with no icon at all. -/
def mNoIcon : Marker :=
  { id := 8, lat := 0, lng := 0, pane := "markerPane", icon := none }

/-- Test fixture: a marker whose icon lacks the anchor. -/
def mNoAnchor : Marker :=
  { id := 9, lat := 0, lng := 0, pane := "markerPane",
    icon := some { url := some "b.png", iconSize := some (32, 32), iconAnchor := none } }

/-- Color-map invariant: every stored color is the generator's value
for its key (true of every reachable `_colorMap`, starting empty). -/
def GoodCM (cm : List (String × String)) : Prop :=
  ∀ p ∈ cm, p.2 = generateDynamicHexcode p.1

instance (cm : List (String × String)) : Decidable (GoodCM cm) := by
  unfold GoodCM
  infer_instance

/-- Projection of the JS exception carried by a call result. -/
def errOf {α : Type} : Except String α → Option String
  | .error e => some e
  | .ok _ => none

/-!
Association-list lemmas.
-/

theorem lookupA_setKey_self {α β : Type} [DecidableEq α] (l : List (α × β)) (k : α) (v : β) :
    lookupA k (setKey l k v) = some v := by
  induction l with
  | nil => simp [setKey, lookupA]
  | cons p rest ih =>
    obtain ⟨k0, v0⟩ := p
    by_cases h : k0 = k
    · simp [setKey, h, lookupA]
    · simp [setKey, h, lookupA, ih]

theorem lookupA_setKey_ne {α β : Type} [DecidableEq α] (l : List (α × β)) (k k' : α) (v : β)
    (h : k' ≠ k) : lookupA k (setKey l k' v) = lookupA k l := by
  induction l with
  | nil => simp [setKey, lookupA, h]
  | cons p rest ih =>
    obtain ⟨k0, v0⟩ := p
    by_cases h0 : k0 = k'
    · subst h0
      simp [setKey, lookupA, h]
    · by_cases h1 : k0 = k
      · subst h1
        simp [setKey, h0, lookupA]
      · simp [setKey, h0, lookupA, h1, ih]

theorem setKey_of_lookupA_none {α β : Type} [DecidableEq α] (l : List (α × β)) (k : α) (v : β)
    (h : lookupA k l = none) : setKey l k v = l ++ [(k, v)] := by
  induction l with
  | nil => simp [setKey]
  | cons p rest ih =>
    obtain ⟨k0, v0⟩ := p
    by_cases h0 : k0 = k
    · simp [lookupA, h0] at h
    · simp [lookupA, h0] at h
      simp [setKey, h0, ih h]

theorem mem_setKey {α β : Type} [DecidableEq α] (l : List (α × β)) (k : α) (v : β) (p : α × β)
    (h : p ∈ setKey l k v) : p ∈ l ∨ p = (k, v) := by
  induction l with
  | nil => simpa [setKey] using h
  | cons q rest ih =>
    obtain ⟨k0, v0⟩ := q
    by_cases h0 : k0 = k
    · subst h0
      simp [setKey] at h
      rcases h with h | h
      · right; simp [h]
      · left; simp [h]
    · simp [setKey, h0] at h
      rcases h with h | h
      · left; simp [h]
      · rcases ih h with h1 | h1
        · left; simp [h1]
        · right; exact h1

theorem lookupA_mem {α β : Type} [DecidableEq α] (l : List (α × β)) (k : α) (v : β)
    (h : lookupA k l = some v) : (k, v) ∈ l := by
  induction l with
  | nil => simp [lookupA] at h
  | cons p rest ih =>
    obtain ⟨k0, v0⟩ := p
    by_cases h0 : k0 = k
    · subst h0
      simp [lookupA] at h
      simp [h]
    · simp [lookupA, h0] at h
      simp [ih h]

theorem lookupA_eq_none_iff {α β : Type} [DecidableEq α] (l : List (α × β)) (k : α) :
    lookupA k l = none ↔ k ∉ l.map Prod.fst := by
  induction l with
  | nil => simp [lookupA]
  | cons p rest ih =>
    obtain ⟨k0, v0⟩ := p
    by_cases h0 : k0 = k
    · simp [lookupA, h0]
    · simp [lookupA, h0, ih, Ne.symm h0]

/-!
Frame and characterization lemmas for the drawing routines.
-/

theorem drawImage_untouched (st : EngineState) (m : Marker) (x y : Int) :
    (drawImage st m x y).1.icons = st.icons ∧
    (drawImage st m x y).1.markerImages = st.markerImages ∧
    (drawImage st m x y).1.errorsLogged = st.errorsLogged ∧
    (drawImage st m x y).1.layers = st.layers ∧
    (drawImage st m x y).1.positionsTree = st.positionsTree ∧
    (drawImage st m x y).1.markersTree = st.markersTree ∧
    (drawImage st m x y).1.map = st.map ∧
    (drawImage st m x y).1.loadsStarted = st.loadsStarted ∧
    (drawImage st m x y).1.redrawCount = st.redrawCount ∧
    (drawImage st m x y).1.addBackground = st.addBackground := by
  unfold drawImage
  split
  · exact ⟨rfl, rfl, rfl, rfl, rfl, rfl, rfl, rfl, rfl, rfl⟩
  · split
    · split <;> exact ⟨rfl, rfl, rfl, rfl, rfl, rfl, rfl, rfl, rfl, rfl⟩
    · exact ⟨rfl, rfl, rfl, rfl, rfl, rfl, rfl, rfl, rfl, rfl⟩

theorem drawImage_draws (st : EngineState) (m : Marker) (x y : Int) :
    (drawImage st m x y).1.draws = st.draws ∨
    (drawImage st m x y).1.draws = st.draws ++ [drawEventOf m x y] := by
  unfold drawImage drawEventOf
  split
  · exact .inl rfl
  · split
    · split
      · exact .inr rfl
      · exact .inr rfl
    · exact .inl rfl

theorem drawImage_ok (st : EngineState) (m : Marker) (x y : Int)
    (hm : flushReadyMarker m = true)
    (hi : (lookupA m.id st.markerImages).isSome = true) :
    (drawImage st m x y).2 = .ok () ∧
    (drawImage st m x y).1.draws = st.draws ++ [drawEventOf m x y] := by
  unfold flushReadyMarker at hm
  unfold drawImage drawEventOf
  cases hic : m.icon with
  | none => simp [hic] at hm
  | some ic =>
    rw [hic] at hm
    obtain ⟨ha, hs⟩ := Bool.and_eq_true_iff.mp hm
    cases hi2 : lookupA m.id st.markerImages with
    | none => simp [hi2] at hi
    | some src =>
      cases ha2 : ic.iconAnchor with
      | none => simp [ha2] at ha
      | some a =>
        cases hs2 : ic.iconSize with
        | none => simp [hs2] at hs
        | some s =>
          simp only [ha2, hs2, hi2]
          split <;> exact ⟨rfl, rfl⟩

theorem drawImage_error_eq (st : EngineState) (m : Marker) (x y : Int) (e : String)
    (h : (drawImage st m x y).2 = .error e) : (drawImage st m x y).1 = st := by
  unfold drawImage at h ⊢
  split at h
  · rfl
  · split at h
    · split at h <;> simp_all
    · rfl

theorem drawMarker_untouched (st : EngineState) (m : Marker) (x y : Int) :
    (drawMarker st m x y).1.layers = st.layers ∧
    (drawMarker st m x y).1.positionsTree = st.positionsTree ∧
    (drawMarker st m x y).1.markersTree = st.markersTree ∧
    (drawMarker st m x y).1.map = st.map ∧
    (drawMarker st m x y).1.errorsLogged = st.errorsLogged ∧
    (drawMarker st m x y).1.redrawCount = st.redrawCount ∧
    (drawMarker st m x y).1.addBackground = st.addBackground := by
  unfold drawMarker
  split
  · exact ⟨rfl, rfl, rfl, rfl, rfl, rfl, rfl⟩
  · split
    · split
      · exact ⟨rfl, rfl, rfl, rfl, rfl, rfl, rfl⟩
      · obtain ⟨-, -, he, hl, hp, hmt, hm, -, hr, hb⟩ := drawImage_untouched st m x y
        exact ⟨hl, hp, hmt, hm, he, hr, hb⟩
    · split
      · split
        · exact ⟨rfl, rfl, rfl, rfl, rfl, rfl, rfl⟩
        · split
          · exact ⟨(drawImage_untouched _ m x y).2.2.2.1,
              (drawImage_untouched _ m x y).2.2.2.2.1,
              (drawImage_untouched _ m x y).2.2.2.2.2.1,
              (drawImage_untouched _ m x y).2.2.2.2.2.2.1,
              (drawImage_untouched _ m x y).2.2.1,
              (drawImage_untouched _ m x y).2.2.2.2.2.2.2.2.1,
              (drawImage_untouched _ m x y).2.2.2.2.2.2.2.2.2⟩
          · exact ⟨rfl, rfl, rfl, rfl, rfl, rfl, rfl⟩
      · exact ⟨rfl, rfl, rfl, rfl, rfl, rfl, rfl⟩

theorem drawMarker_pending (st : EngineState) (m : Marker) (x y : Int) (u : String)
    (entry : IconEntry)
    (hu : iconUrlOf m = some u)
    (hmi : lookupA m.id st.markerImages = none)
    (he : lookupA u st.icons = some entry)
    (hne : entry.hasErrored = false) (hnl : entry.isLoaded = false) :
    drawMarker st m x y =
      ({ st with
          markerImages := setKey st.markerImages m.id u,
          icons := setKey st.icons u
            { entry with elements := entry.elements ++ [⟨m, x, y⟩] } }, .ok ()) := by
  unfold drawMarker
  simp only [hu, hmi, he, hne, hnl]
  simp

theorem drawMarker_fresh (st : EngineState) (m : Marker) (x y : Int) (u : String)
    (hu : iconUrlOf m = some u)
    (hmi : lookupA m.id st.markerImages = none)
    (he : lookupA u st.icons = none) :
    drawMarker st m x y =
      ({ st with
          markerImages := setKey st.markerImages m.id u,
          loadsStarted := st.loadsStarted ++ [u],
          icons := setKey st.icons u ⟨false, false, [⟨m, x, y⟩]⟩ }, .ok ()) := by
  unfold drawMarker
  simp only [hu, hmi, he]

theorem validMarker_parts (m : Marker) (h : validMarker m = true) :
    m.pane = "markerPane" ∧
    ∃ ic u a s, m.icon = some ic ∧ ic.url = some u ∧ ic.iconAnchor = some a ∧
      ic.iconSize = some s := by
  unfold validMarker at h
  cases hic : m.icon with
  | none => rw [hic] at h; simp at h
  | some ic =>
    rw [hic] at h
    simp at h
    obtain ⟨hp, ⟨hu1, ha1⟩, hs1⟩ := h
    rw [Option.isSome_iff_exists] at hu1 ha1 hs1
    obtain ⟨u, hu0⟩ := hu1
    obtain ⟨a, ha0⟩ := ha1
    obtain ⟨s, hs0⟩ := hs1
    exact ⟨hp, ic, u, a, s, rfl, hu0, ha0, hs0⟩

theorem flushReady_of_valid (m : Marker) (h : validMarker m = true) :
    flushReadyMarker m = true := by
  obtain ⟨-, ic, u, a, s, hic, hu0, ha0, hs0⟩ := validMarker_parts m h
  unfold flushReadyMarker
  rw [hic]
  simp [ha0, hs0]

theorem iconUrl_of_valid (m : Marker) (h : validMarker m = true) :
    ∃ u, iconUrlOf m = some u := by
  obtain ⟨-, ic, u, a, s, hic, hu0, ha0, hs0⟩ := validMarker_parts m h
  exact ⟨u, by unfold iconUrlOf; rw [hic]; simpa using hu0⟩

theorem drawMarker_ok_of_valid (st : EngineState) (m : Marker) (x y : Int)
    (h : validMarker m = true) : (drawMarker st m x y).2 = .ok () := by
  have hready := flushReady_of_valid m h
  obtain ⟨u, hu⟩ := iconUrl_of_valid m h
  unfold drawMarker
  rw [hu]
  cases hmi : lookupA m.id st.markerImages with
  | some w =>
    simp only [hmi]
    split
    · rfl
    · exact (drawImage_ok st m x y hready (by simp [hmi])).1
  | none =>
    simp only [hmi]
    cases he : lookupA u st.icons with
    | some entry =>
      simp only [he]
      split
      · rfl
      · split
        · exact (drawImage_ok _ m x y hready
            (by simp [lookupA_setKey_self])).1
        · rfl
    | none => simp only [he]

/-!
Characterization of the add path for valid markers.
-/

theorem addMarker_valid (st : EngineState) (m : Marker) (v : MapView)
    (hmap : st.map = some v) (hv : validMarker m = true) :
    (∃ mb, (addMarker st m).2 =
        .ok (some (mb, posBoxOf m, viewContains v m.lat m.lng))) ∧
    (addMarker st m).1.layers = setKey st.layers m.id m ∧
    (addMarker st m).1.positionsTree = st.positionsTree ∧
    (addMarker st m).1.markersTree = st.markersTree ∧
    (addMarker st m).1.map = some v := by
  obtain ⟨hp, ic, u, a, s, hic, hu0, ha0, hs0⟩ := validMarker_parts m hv
  have hcond : ¬(m.pane ≠ "markerPane" ∨ m.icon = none) := by simp [hp, hic]
  unfold addMarker
  rw [if_neg hcond]
  simp only [hmap, hic, ha0, hs0]
  by_cases hvis : viewContains v m.lat m.lng
  · have hdm : drawMarker st m (v.proj m.lat m.lng).1 (v.proj m.lat m.lng).2 =
        ((drawMarker st m (v.proj m.lat m.lng).1 (v.proj m.lat m.lng).2).1, .ok ()) := by
      rw [← drawMarker_ok_of_valid st m (v.proj m.lat m.lng).1 (v.proj m.lat m.lng).2 hv]
    obtain ⟨hl, hpt, hmt, hmp, -, -, -⟩ :=
      drawMarker_untouched st m (v.proj m.lat m.lng).1 (v.proj m.lat m.lng).2
    simp only [hvis, if_true]
    rw [hdm]
    refine ⟨⟨_, rfl⟩, ?_, ?_, ?_, ?_⟩
    · simp [hl]
    · simp [hpt]
    · simp [hmt]
    · simp [hmp, hmap]
  · simp only [hvis, if_false]
    exact ⟨⟨_, rfl⟩, rfl, rfl, rfl, hmap⟩

theorem addMarkersLoop_valid (v : MapView) :
    ∀ (ms : List Marker) (st : EngineState) (mbs pbs : List Box),
      st.map = some v → (∀ m ∈ ms, validMarker m = true) →
      (addMarkersLoop st ms mbs pbs).2.2.2 = .ok () ∧
      (addMarkersLoop st ms mbs pbs).2.2.1 = pbs ++ ms.map posBoxOf ∧
      (addMarkersLoop st ms mbs pbs).1.layers = regAll st.layers ms ∧
      (addMarkersLoop st ms mbs pbs).1.positionsTree = st.positionsTree ∧
      (addMarkersLoop st ms mbs pbs).1.markersTree = st.markersTree ∧
      (addMarkersLoop st ms mbs pbs).1.map = some v
  | [], st, mbs, pbs, hmap, _ => by
    simp [addMarkersLoop, regAll, hmap]
  | m :: rest, st, mbs, pbs, hmap, hval => by
    obtain ⟨⟨mb, hres⟩, hl, hpt, hmt, hmp⟩ :=
      addMarker_valid st m v hmap (hval m (by simp))
    have hm : addMarker st m =
        ((addMarker st m).1, .ok (some (mb, posBoxOf m, viewContains v m.lat m.lng))) := by
      rw [← hres]
    have ih := addMarkersLoop_valid v rest (addMarker st m).1
      (if viewContains v m.lat m.lng then mbs ++ [mb] else mbs)
      (pbs ++ [posBoxOf m]) hmp (fun m' hm' => hval m' (by simp [hm']))
    unfold addMarkersLoop
    rw [hm]
    refine ⟨ih.1, ?_, ?_, ?_, ?_, ih.2.2.2.2.2⟩
    · rw [ih.2.1]
      simp
    · rw [ih.2.2.1, hl]
      rfl
    · rw [ih.2.2.2.1, hpt]
    · rw [ih.2.2.2.2.1, hmt]

theorem addMarkers_valid (st : EngineState) (ms : List Marker) (v : MapView)
    (hmap : st.map = some v) (hval : ∀ m ∈ ms, validMarker m = true) :
    (addMarkers st ms).2 = .ok () ∧
    (addMarkers st ms).1.positionsTree = st.positionsTree ++ ms.map posBoxOf ∧
    (addMarkers st ms).1.layers = regAll st.layers ms ∧
    (addMarkers st ms).1.map = some v := by
  obtain ⟨hok, hpbs, hl, hpt, hmt, hmp⟩ := addMarkersLoop_valid v ms st [] [] hmap hval
  unfold addMarkers
  have hloop : addMarkersLoop st ms [] [] =
      ((addMarkersLoop st ms [] []).1,
       (addMarkersLoop st ms [] []).2.1,
       (addMarkersLoop st ms [] []).2.2.1, .ok ()) := by
    rw [← hok]
  rw [hloop]
  refine ⟨rfl, ?_, by simpa using hl, by simpa using hmp⟩
  simp only [hpt, hpbs]
  simp

theorem regAll_layers (ms : List Marker) : ∀ (l : List (Nat × Marker)),
    (∀ m ∈ ms, m.id ∉ l.map Prod.fst) → (ms.map Marker.id).Nodup →
    (regAll l ms).map Prod.fst = l.map Prod.fst ++ ms.map Marker.id := by
  induction ms with
  | nil => intro l _ _; simp [regAll]
  | cons m rest ih =>
    intro l hfresh hnd
    have hnone : lookupA m.id l = none :=
      (lookupA_eq_none_iff l m.id).mpr (hfresh m (by simp))
    have hset : setKey l m.id m = l ++ [(m.id, m)] :=
      setKey_of_lookupA_none l m.id m hnone
    simp only [List.map_cons, List.nodup_cons] at hnd
    have hrest : ∀ m' ∈ rest, m'.id ∉ (l ++ [(m.id, m)]).map Prod.fst := by
      intro m' hm'
      simp only [List.map_append, List.mem_append]
      rintro (h | h)
      · exact hfresh m' (by simp [hm']) h
      · simp at h
        exact hnd.1 (h ▸ List.mem_map_of_mem Marker.id hm')
    calc (regAll l (m :: rest)).map Prod.fst
        = (regAll (l ++ [(m.id, m)]) rest).map Prod.fst := by
          simp [regAll, hset]
      _ = (l ++ [(m.id, m)]).map Prod.fst ++ rest.map Marker.id :=
          ih (l ++ [(m.id, m)]) hrest hnd.2
      _ = l.map Prod.fst ++ (m :: rest).map Marker.id := by simp

/-!
Run-level invariant for add-only sequences.
-/

theorem run_addsOnly (v : MapView) :
    ∀ (evs : List Ev) (st : EngineState),
      st.map = some v →
      st.positionsTree.map (fun b => b.marker.id) = st.layers.map Prod.fst →
      (∀ e ∈ evs, addsOnly e = true) →
      (∀ e ∈ evs, ∀ m ∈ evMarkers e, validMarker m = true) →
      (∀ e ∈ evs, ∀ m ∈ evMarkers e, m.id ∉ st.layers.map Prod.fst) →
      ((evs.map evMarkers).flatten.map Marker.id).Nodup →
      (run st evs).positionsTree.map (fun b => b.marker.id) =
        (run st evs).layers.map Prod.fst
  | [], st, _, hinv, _, _, _, _ => hinv
  | e :: rest, st, hmap, hinv, hadd, hval, hfresh, hnd => by
    cases e with
    | addMany ms =>
      have hvalms : ∀ m ∈ ms, validMarker m = true := by
        intro m hm
        exact hval (.addMany ms) (by simp) m (by simpa [evMarkers] using hm)
      obtain ⟨-, hpt, hl, hmp⟩ := addMarkers_valid st ms v hmap hvalms
      have hjoin :
          ((Ev.addMany ms :: rest).map evMarkers).flatten = ms ++ (rest.map evMarkers).flatten := by
        simp [evMarkers]
      rw [hjoin] at hnd
      rw [List.map_append, List.nodup_append] at hnd
      obtain ⟨hndms, hndrest, hdisj⟩ := hnd
      have hfreshms : ∀ m ∈ ms, m.id ∉ st.layers.map Prod.fst := by
        intro m hm
        exact hfresh (.addMany ms) (by simp) m (by simpa [evMarkers] using hm)
      have hkeys : (regAll st.layers ms).map Prod.fst =
          st.layers.map Prod.fst ++ ms.map Marker.id :=
        regAll_layers ms st.layers hfreshms hndms
      have hinv2 : ((addMarkers st ms).1.positionsTree.map (fun b => b.marker.id)) =
          (addMarkers st ms).1.layers.map Prod.fst := by
        rw [hpt, hl, hkeys, List.map_append, hinv]
        congr 1
        simp [posBoxOf]
      have hfresh2 : ∀ e ∈ rest, ∀ m ∈ evMarkers e,
          m.id ∉ (addMarkers st ms).1.layers.map Prod.fst := by
        intro e he m hm
        rw [hl, hkeys]
        simp only [List.mem_append]
        rintro (h | h)
        · exact hfresh e (by simp [he]) m hm h
        · have hmem : m.id ∈ ((rest.map evMarkers).flatten.map Marker.id) := by
            refine List.mem_map_of_mem Marker.id ?_
            rw [List.mem_flatten]
            exact ⟨evMarkers e, List.mem_map_of_mem evMarkers he, hm⟩
          exact hdisj h hmem
      have step_eq : run st (Ev.addMany ms :: rest) = run (addMarkers st ms).1 rest := rfl
      rw [step_eq]
      exact run_addsOnly v rest (addMarkers st ms).1 hmp hinv2
        (fun e he => hadd e (by simp [he]))
        (fun e he => hval e (by simp [he]))
        hfresh2 hndrest
    | addOne m => exact absurd (hadd (.addOne m) (by simp)) (by simp [addsOnly])
    | removeOne m => exact absurd (hadd (.removeOne m) (by simp)) (by simp [addsOnly])
    | removeMany ms => exact absurd (hadd (.removeMany ms) (by simp)) (by simp [addsOnly])
    | redrawEv b => exact absurd (hadd (.redrawEv b) (by simp)) (by simp [addsOnly])
    | clearEv => exact absurd (hadd .clearEv (by simp)) (by simp [addsOnly])
    | setView v2 => exact absurd (hadd (.setView v2) (by simp)) (by simp [addsOnly])
    | load u => exact absurd (hadd (.load u) (by simp)) (by simp [addsOnly])
    | fail u => exact absurd (hadd (.fail u) (by simp)) (by simp [addsOnly])

/-!
Redraw and removal lemmas.
-/

theorem redrawLoop_frame (v : MapView) :
    ∀ (bs : List Box) (st : EngineState) (acc : List Box),
      (redrawLoop v st acc bs).1.layers = st.layers ∧
      (redrawLoop v st acc bs).1.positionsTree = st.positionsTree ∧
      (redrawLoop v st acc bs).1.map = st.map ∧
      (redrawLoop v st acc bs).1.redrawCount = st.redrawCount ∧
      (redrawLoop v st acc bs).1.errorsLogged = st.errorsLogged
  | [], st, acc => ⟨rfl, rfl, rfl, rfl, rfl⟩
  | b :: rest, st, acc => by
    unfold redrawLoop
    split
    · exact ⟨rfl, rfl, rfl, rfl, rfl⟩
    · split
      · dsimp only
        split
        · rename_i st1 u4 heq
          obtain ⟨h1, h2, -, h3, h5, h4, -⟩ :=
            drawMarker_untouched st b.marker (v.proj b.marker.lat b.marker.lng).1
              (v.proj b.marker.lat b.marker.lng).2
          rw [heq] at h1 h2 h3 h4 h5
          obtain ⟨g1, g2, g3, g4, g5⟩ := redrawLoop_frame v rest st1 (acc ++ [_])
          exact ⟨g1.trans h1, g2.trans h2, g3.trans h3, g4.trans h4, g5.trans h5⟩
        · rename_i st1 e heq
          obtain ⟨h1, h2, -, h3, h5, h4, -⟩ :=
            drawMarker_untouched st b.marker (v.proj b.marker.lat b.marker.lng).1
              (v.proj b.marker.lat b.marker.lng).2
          rw [heq] at h1 h2 h3 h4 h5
          exact ⟨h1, h2, h3, h4, h5⟩
      · exact ⟨rfl, rfl, rfl, rfl, rfl⟩

theorem redrawLoop_valid (v : MapView) :
    ∀ (bs : List Box) (st : EngineState) (acc : List Box),
      (∀ b ∈ bs, validMarker b.marker = true) →
      (redrawLoop v st acc bs).2.2 = .ok () ∧
      (redrawLoop v st acc bs).2.1 = acc ++ bs.map (fun b => screenBoxOf v b.marker)
  | [], st, acc, _ => ⟨rfl, by simp [redrawLoop]⟩
  | b :: rest, st, acc, hval => by
    obtain ⟨hp, ic, u, a, s, hic, hu0, ha0, hs0⟩ :=
      validMarker_parts b.marker (hval b (by simp))
    have hsb : screenBoxOf v b.marker =
        ⟨(v.proj b.marker.lat b.marker.lng).1 - a.1, (v.proj b.marker.lat b.marker.lng).2 - a.2,
         (v.proj b.marker.lat b.marker.lng).1 + s.1 - a.1,
         (v.proj b.marker.lat b.marker.lng).2 + s.2 - a.2, b.marker⟩ := by
      unfold screenBoxOf
      rw [hic]
      simp only [ha0, hs0]
    have hdm : drawMarker st b.marker (v.proj b.marker.lat b.marker.lng).1
        (v.proj b.marker.lat b.marker.lng).2 =
        ((drawMarker st b.marker (v.proj b.marker.lat b.marker.lng).1
          (v.proj b.marker.lat b.marker.lng).2).1, .ok ()) := by
      rw [← drawMarker_ok_of_valid st b.marker _ _ (hval b (by simp))]
    have ih := redrawLoop_valid v rest
      ((drawMarker st b.marker (v.proj b.marker.lat b.marker.lng).1
        (v.proj b.marker.lat b.marker.lng).2).1)
      (acc ++ [screenBoxOf v b.marker])
      (fun b' hb' => hval b' (by simp [hb']))
    unfold redrawLoop
    rw [hic]
    simp only [hs0, ha0]
    rw [← hsb, hdm]
    refine ⟨ih.1, ?_⟩
    rw [ih.2]
    simp

theorem redraw_frame (st : EngineState) (c : Bool) :
    (redraw st c).1.layers = st.layers ∧
    (redraw st c).1.positionsTree = st.positionsTree ∧
    (redraw st c).1.map = st.map ∧
    (redraw st c).1.redrawCount = st.redrawCount + 1 ∧
    (redraw st c).1.errorsLogged = st.errorsLogged := by
  unfold redraw
  dsimp only
  split
  · exact ⟨rfl, rfl, rfl, rfl, rfl⟩
  · rename_i v hv
    split
    · rename_i st1 acc u4 heq
      obtain ⟨h1, h2, h3, h4, h5⟩ := redrawLoop_frame v
        (List.filter (fun b => boxIntersects (queryBoxOfView v) b) st.positionsTree)
        { st with redrawCount := st.redrawCount + 1 } []
      rw [heq] at h1 h2 h3 h4 h5
      exact ⟨h1, h2, h3, h4, h5⟩
    · rename_i st1 acc e heq
      obtain ⟨h1, h2, h3, h4, h5⟩ := redrawLoop_frame v
        (List.filter (fun b => boxIntersects (queryBoxOfView v) b) st.positionsTree)
        { st with redrawCount := st.redrawCount + 1 } []
      rw [heq] at h1 h2 h3 h4 h5
      exact ⟨h1, h2, h3, h4, h5⟩

theorem redraw_markersTree (st : EngineState) (v : MapView) (hmap : st.map = some v)
    (hval : ∀ b ∈ st.positionsTree.filter (fun b => boxIntersects (queryBoxOfView v) b),
      validMarker b.marker = true) :
    (redraw st true).2 = .ok () ∧
    (redraw st true).1.markersTree =
      (st.positionsTree.filter (fun b => boxIntersects (queryBoxOfView v) b)).map
        (fun b => screenBoxOf v b.marker) := by
  obtain ⟨hok, hacc⟩ := redrawLoop_valid v
    (st.positionsTree.filter (fun b => boxIntersects (queryBoxOfView v) b))
    { st with redrawCount := st.redrawCount + 1 } [] hval
  unfold redraw
  dsimp only
  split
  · rename_i hnone
    rw [hmap] at hnone
    cases hnone
  · rename_i v2 hv2
    rw [hmap] at hv2
    cases hv2
    split
    · rename_i st1 acc u4 heq
      rw [heq] at hacc
      simp only [List.nil_append] at hacc
      exact ⟨rfl, hacc⟩
    · rename_i st1 acc e heq
      rw [heq] at hok
      cases hok

theorem removeMarker_spec (st : EngineState) (m : Marker) (v : MapView)
    (hmap : st.map = some v) :
    (removeMarker st m).1.positionsTree = removeFirstById st.positionsTree m.id ∧
    (removeMarker st m).1.layers = st.layers ∧
    (removeMarker st m).1.redrawCount =
      st.redrawCount + (if viewContains v m.lat m.lng then 1 else 0) := by
  unfold removeMarker
  dsimp only
  split
  · rename_i hnone
    rw [hmap] at hnone
    cases hnone
  · rename_i v2 hv2
    rw [hmap] at hv2
    cases hv2
    split
    · rename_i hvis
      obtain ⟨h1, h2, -, h4, -⟩ :=
        redraw_frame { st with positionsTree := removeFirstById st.positionsTree m.id } true
      exact ⟨h2, h1, by simpa [hvis] using h4⟩
    · rename_i hvis
      exact ⟨rfl, rfl, by simp [hvis]⟩

theorem removeLoop_tree (v : MapView) :
    ∀ (ms : List Marker) (t : List Box) (c : Bool),
      (removeLoop v t c ms).1 =
        ms.foldl (fun t m => removeFirstById t m.id) t
  | [], t, c => rfl
  | m :: rest, t, c => by
    unfold removeLoop
    exact removeLoop_tree v rest (removeFirstById t m.id) _

theorem removeMarkers_spec (st : EngineState) (ms : List Marker) (v : MapView)
    (hmap : st.map = some v) :
    (removeMarkers st ms).1.layers = st.layers ∧
    (removeMarkers st ms).1.positionsTree =
      ms.foldl (fun t m => removeFirstById t m.id) st.positionsTree := by
  unfold removeMarkers
  dsimp only
  split
  · rename_i hnone
    rw [hmap] at hnone
    cases hnone
  · rename_i v2 hv2
    rw [hmap] at hv2
    cases hv2
    have h0 := removeLoop_tree v ms st.positionsTree false
    split
    · obtain ⟨h1, h2, -, -, -⟩ := redraw_frame
        { st with positionsTree := (removeLoop v st.positionsTree false ms).1 } true
      exact ⟨h1, h2.trans h0⟩
    · exact ⟨rfl, h0⟩

theorem getBounds_congr (st st' : EngineState) (h : st'.layers = st.layers) :
    getBounds st' = getBounds st := by
  unfold getBounds
  rw [h]

/-!
Flush lemmas: the load-completion path.
-/

theorem flushLoop_spec (v : MapView) :
    ∀ (els : List QElem) (st : EngineState),
      (∀ e ∈ els, flushReadyQ st e) →
      (flushLoop v st els).2 = .ok () ∧
      (flushLoop v st els).1.draws = st.draws ++ els.map (flushDrawOf v) ∧
      (flushLoop v st els).1.icons = st.icons ∧
      (flushLoop v st els).1.markerImages = st.markerImages ∧
      (flushLoop v st els).1.map = st.map ∧
      (flushLoop v st els).1.layers = st.layers ∧
      (flushLoop v st els).1.positionsTree = st.positionsTree ∧
      (flushLoop v st els).1.markersTree = st.markersTree ∧
      (flushLoop v st els).1.loadsStarted = st.loadsStarted ∧
      (flushLoop v st els).1.errorsLogged = st.errorsLogged
  | [], st, _ => by
    refine ⟨rfl, ?_, rfl, rfl, rfl, rfl, rfl, rfl, rfl, rfl⟩
    simp [flushLoop]
  | e :: rest, st, hready => by
    obtain ⟨hok, hdraws⟩ := drawImage_ok st e.marker
      (v.proj e.marker.lat e.marker.lng).1 (v.proj e.marker.lat e.marker.lng).2
      (hready e (by simp)).1 (hready e (by simp)).2
    have hdi : drawImage st e.marker (v.proj e.marker.lat e.marker.lng).1
        (v.proj e.marker.lat e.marker.lng).2 =
        ((drawImage st e.marker (v.proj e.marker.lat e.marker.lng).1
          (v.proj e.marker.lat e.marker.lng).2).1, .ok ()) := by
      rw [← hok]
    obtain ⟨hi, hmi, hel, hl, hpt, hmt, hmp, hls, -, -⟩ := drawImage_untouched st e.marker
      (v.proj e.marker.lat e.marker.lng).1 (v.proj e.marker.lat e.marker.lng).2
    have hready2 : ∀ e2 ∈ rest, flushReadyQ
        (drawImage st e.marker (v.proj e.marker.lat e.marker.lng).1
          (v.proj e.marker.lat e.marker.lng).2).1 e2 := by
      intro e2 he2
      obtain ⟨hq1, hq2⟩ := hready e2 (by simp [he2])
      exact ⟨hq1, by rw [hmi]; exact hq2⟩
    obtain ⟨g0, g1, g2, g3, g4, g5, g6, g7, g8, g9⟩ := flushLoop_spec v rest
      (drawImage st e.marker (v.proj e.marker.lat e.marker.lng).1
        (v.proj e.marker.lat e.marker.lng).2).1 hready2
    unfold flushLoop
    rw [hdi]
    refine ⟨g0, ?_, g2.trans hi, g3.trans hmi, g4.trans hmp, g5.trans hl,
      g6.trans hpt, g7.trans hmt, g8.trans hls, g9.trans hel⟩
    rw [g1, hdraws]
    simp [flushDrawOf]

theorem fireLoad_spec (st : EngineState) (u : String) (entry : IconEntry) (v : MapView)
    (hmap : st.map = some v) (he : lookupA u st.icons = some entry)
    (hready : ∀ e ∈ entry.elements, flushReadyQ st e) :
    (fireLoad st u).2 = .ok () ∧
    (fireLoad st u).1.draws = st.draws ++ entry.elements.map (flushDrawOf v) ∧
    (fireLoad st u).1.icons = setKey st.icons u { entry with isLoaded := true } ∧
    (fireLoad st u).1.markerImages = st.markerImages := by
  unfold fireLoad
  simp only [he]
  split
  · rename_i hnone
    rw [hmap] at hnone
    cases hnone
  · rename_i v2 hv2
    rw [hmap] at hv2
    cases hv2
    obtain ⟨g0, g1, g2, g3, -, -, -, -, -, -⟩ := flushLoop_spec v entry.elements
      { st with icons := setKey st.icons u { entry with isLoaded := true } }
      (fun e he2 => hready e he2)
    exact ⟨g0, g1, g2, g3⟩

/-!
Request sequences against one URL.
-/

theorem requestAll_pending (u : String) :
    ∀ (reqs : List (Marker × Int × Int)) (st : EngineState) (q : List QElem),
      lookupA u st.icons = some ⟨false, false, q⟩ →
      (∀ r ∈ reqs, iconUrlOf r.1 = some u ∧ lookupA r.1.id st.markerImages = none) →
      (reqs.map (fun r => r.1.id)).Nodup →
      lookupA u (requestAll st reqs).icons = some ⟨false, false, q ++ reqs.map qElemOf⟩ ∧
      (requestAll st reqs).draws = st.draws ∧
      (requestAll st reqs).loadsStarted = st.loadsStarted ∧
      (requestAll st reqs).map = st.map ∧
      (∀ i w, lookupA i st.markerImages = some w →
        lookupA i (requestAll st reqs).markerImages = some w) ∧
      (∀ r ∈ reqs, lookupA r.1.id (requestAll st reqs).markerImages = some u)
  | [], st, q, he, _, _ => by
    refine ⟨by simpa using he, rfl, rfl, rfl, fun i w h => h, by simp⟩
  | r :: rest, st, q, he, hreq, hnd => by
    obtain ⟨m, x, y⟩ := r
    obtain ⟨hu, hmi⟩ := hreq (m, x, y) (by simp)
    have hdm := drawMarker_pending st m x y u ⟨false, false, q⟩ hu hmi he rfl rfl
    have hstep : requestAll st ((m, x, y) :: rest) =
        requestAll (drawMarker st m x y).1 rest := rfl
    rw [hstep, hdm]
    simp only [List.map_cons, List.nodup_cons] at hnd
    set st1 : EngineState :=
      { st with
          markerImages := setKey st.markerImages m.id u,
          icons := setKey st.icons u ⟨false, false, q ++ [⟨m, x, y⟩]⟩ } with hst1
    have he1 : lookupA u st1.icons = some ⟨false, false, q ++ [⟨m, x, y⟩]⟩ :=
      lookupA_setKey_self st.icons u _
    have hreq1 : ∀ r2 ∈ rest, iconUrlOf r2.1 = some u ∧
        lookupA r2.1.id st1.markerImages = none := by
      intro r2 hr2
      obtain ⟨hu2, hmi2⟩ := hreq r2 (by simp [hr2])
      have hne : m.id ≠ r2.1.id := by
        intro hcontra
        exact hnd.1 (hcontra ▸ List.mem_map_of_mem (fun r => r.1.id) hr2)
      refine ⟨hu2, ?_⟩
      rw [lookupA_setKey_ne st.markerImages r2.1.id m.id u hne]
      exact hmi2
    obtain ⟨g1, g2, g3, g4, g5, g6⟩ := requestAll_pending u rest st1 (q ++ [⟨m, x, y⟩])
      he1 hreq1 hnd.2
    refine ⟨?_, g2, g3, g4, ?_, ?_⟩
    · rw [g1]
      simp [qElemOf]
    · intro i w hw
      have hne : i ≠ m.id := by
        intro hcontra
        rw [hcontra, hmi] at hw
        cases hw
      refine g5 i w ?_
      show lookupA i (setKey st.markerImages m.id u) = some w
      rw [lookupA_setKey_ne st.markerImages i m.id u (Ne.symm hne)]
      exact hw
    · intro r2 hr2
      rcases List.mem_cons.mp hr2 with hhead | htail
      · subst hhead
        exact g5 m.id u (lookupA_setKey_self st.markerImages m.id u)
      · exact g6 r2 htail

/-!
Sticky error state: once a URL has errored, nothing draws it again, no
further diagnostics appear for it, and the flag is never cleared.
-/

theorem ErrPreserved.comp {U : String} {s1 s2 s3 : EngineState}
    (h12 : ErrPreserved U s1 s2) (h23 : ErrPreserved U s2 s3) :
    ErrPreserved U s1 s3 :=
  ⟨h23.1, h23.2.1, h23.2.2.1.trans h12.2.2.1, h23.2.2.2.trans h12.2.2.2⟩

theorem drawImage_err (U : String) (st : EngineState) (m : Marker) (x y : Int)
    (hq : QueueUrl st.icons) (he : hasErroredFor st U = true)
    (hne : ((iconUrlOf m).getD "" == U) = false) :
    ErrPreserved U st (drawImage st m x y).1 := by
  obtain ⟨hi, -, hel, -, -, -, -, -, -, -⟩ := drawImage_untouched st m x y
  refine ⟨hi ▸ hq, ?_, ?_, ?_⟩
  · unfold hasErroredFor at he ⊢
    rw [hi]
    exact he
  · rcases drawImage_draws st m x y with h | h
    · unfold drawsFor
      rw [h]
    · unfold drawsFor
      rw [h, List.filter_append]
      simp [drawEventOf, hne]
  · unfold errorsFor
    rw [hel]

theorem drawMarker_err (U : String) (st : EngineState) (m : Marker) (x y : Int)
    (hq : QueueUrl st.icons) (he : hasErroredFor st U = true) :
    ErrPreserved U st (drawMarker st m x y).1 := by
  unfold drawMarker
  cases hu : iconUrlOf m with
  | none => exact ⟨hq, he, rfl, rfl⟩
  | some u =>
    by_cases huU : u = U
    · subst huU
      cases hmi : lookupA m.id st.markerImages with
      | some w =>
        simp only [hmi, he, if_true]
        exact ⟨hq, he, rfl, rfl⟩
      | none =>
        cases he2 : lookupA u st.icons with
        | none =>
          unfold hasErroredFor at he
          rw [he2] at he
          cases he
        | some entry =>
          have hent : entry.hasErrored = true := by
            unfold hasErroredFor at he
            rw [he2] at he
            exact he
          simp only [hmi, he2, hent, if_true]
          exact ⟨hq, he, rfl, rfl⟩
    · have hneq : ((iconUrlOf m).getD "" == U) = false := by
        rw [hu]
        simpa using huU
      cases hmi : lookupA m.id st.markerImages with
      | some w =>
        simp only [hmi]
        cases hErr : hasErroredFor st u with
        | true =>
          simp only [if_true]
          exact ⟨hq, he, rfl, rfl⟩
        | false =>
          simp only [Bool.false_eq_true, if_false]
          exact drawImage_err U st m x y hq he hneq
      | none =>
        cases he2 : lookupA u st.icons with
        | some entry =>
          cases hent : entry.hasErrored with
          | true =>
            simp only [hmi, he2, hent, if_true]
            exact ⟨hq, he, rfl, rfl⟩
          | false =>
            cases hload : entry.isLoaded with
            | true =>
              simp only [hmi, he2, hent, hload, Bool.false_eq_true, if_false, if_true]
              exact drawImage_err U
                { st with markerImages := setKey st.markerImages m.id u } m x y hq he hneq
            | false =>
              simp only [hmi, he2, hent, hload, Bool.false_eq_true, if_false]
              refine ⟨?_, ?_, rfl, rfl⟩
              · intro p hp e2 he2mem
                rcases mem_setKey st.icons u _ p hp with hold | hnew
                · exact hq p hold e2 he2mem
                · subst hnew
                  simp only at he2mem
                  rcases List.mem_append.mp he2mem with holde | hnewe
                  · exact hq (u, entry) (lookupA_mem st.icons u entry he2) e2 holde
                  · simp at hnewe
                    rw [hnewe]
                    exact hu
              · unfold hasErroredFor at he ⊢
                show (match lookupA U (setKey st.icons u _) with
                  | some e => e.hasErrored
                  | none => false) = true
                rw [lookupA_setKey_ne st.icons U u _ huU]
                exact he
        | none =>
          simp only [hmi, he2]
          refine ⟨?_, ?_, rfl, rfl⟩
          · intro p hp e2 he2mem
            rcases mem_setKey st.icons u _ p hp with hold | hnew
            · exact hq p hold e2 he2mem
            · subst hnew
              simp only [List.mem_singleton] at he2mem
              rw [he2mem]
              exact hu
          · unfold hasErroredFor at he ⊢
            show (match lookupA U (setKey st.icons u _) with
              | some e => e.hasErrored
              | none => false) = true
            rw [lookupA_setKey_ne st.icons U u _ huU]
            exact he

theorem addMarker_err (U : String) (st : EngineState) (m : Marker)
    (hq : QueueUrl st.icons) (he : hasErroredFor st U = true) :
    ErrPreserved U st (addMarker st m).1 := by
  unfold addMarker
  split
  · refine ⟨hq, he, rfl, ?_⟩
    unfold errorsFor
    show List.filter _ (st.errorsLogged ++ [LogEntry.notAMarker]) = _
    rw [List.filter_append]
    simp
  · split
    · exact ⟨hq, he, rfl, rfl⟩
    · rename_i v ic hv hic
      split
      · dsimp only
        have h1 := drawMarker_err U st m (v.proj m.lat m.lng).1 (v.proj m.lat m.lng).2 hq he
        by_cases hvis : viewContains v m.lat m.lng = true
        · simp only [hvis, if_true]
          split
          · rename_i st1 u4 heq
            rw [heq] at h1
            exact ⟨h1.1, h1.2.1, h1.2.2.1, h1.2.2.2⟩
          · rename_i st1 e heq
            rw [heq] at h1
            exact h1
        · simp only [Bool.not_eq_true] at hvis
          simp only [hvis, Bool.false_eq_true, if_false]
          exact ⟨hq, he, rfl, rfl⟩
      · exact ⟨hq, he, rfl, rfl⟩
    · exact ⟨hq, he, rfl, rfl⟩

theorem addMarkersLoop_err (U : String) :
    ∀ (ms : List Marker) (st : EngineState) (mbs pbs : List Box),
      QueueUrl st.icons → hasErroredFor st U = true →
      ErrPreserved U st (addMarkersLoop st ms mbs pbs).1
  | [], st, mbs, pbs, hq, he => ⟨hq, he, rfl, rfl⟩
  | m :: rest, st, mbs, pbs, hq, he => by
    have h1 := addMarker_err U st m hq he
    unfold addMarkersLoop
    split
    · rename_i st1 e heq
      rw [heq] at h1
      exact h1
    · rename_i st1 heq
      rw [heq] at h1
      exact h1.comp (addMarkersLoop_err U rest st1 mbs pbs h1.1 h1.2.1)
    · rename_i st1 mb pb vis heq
      rw [heq] at h1
      exact h1.comp (addMarkersLoop_err U rest st1 _ _ h1.1 h1.2.1)

theorem addMarkers_err (U : String) (st : EngineState) (ms : List Marker)
    (hq : QueueUrl st.icons) (he : hasErroredFor st U = true) :
    ErrPreserved U st (addMarkers st ms).1 := by
  have h1 := addMarkersLoop_err U ms st [] [] hq he
  unfold addMarkers
  split
  · rename_i st1 mbs pbs heq
    rw [heq] at h1
    exact ⟨h1.1, h1.2.1, h1.2.2.1, h1.2.2.2⟩
  · rename_i st1 mbs pbs e heq
    rw [heq] at h1
    exact h1

theorem redrawLoop_err (U : String) (v : MapView) :
    ∀ (bs : List Box) (st : EngineState) (acc : List Box),
      QueueUrl st.icons → hasErroredFor st U = true →
      ErrPreserved U st (redrawLoop v st acc bs).1
  | [], st, acc, hq, he => ⟨hq, he, rfl, rfl⟩
  | b :: rest, st, acc, hq, he => by
    unfold redrawLoop
    split
    · exact ⟨hq, he, rfl, rfl⟩
    · split
      · dsimp only
        have h1 := drawMarker_err U st b.marker (v.proj b.marker.lat b.marker.lng).1
          (v.proj b.marker.lat b.marker.lng).2 hq he
        split
        · rename_i st1 u4 heq
          rw [heq] at h1
          exact h1.comp (redrawLoop_err U v rest st1 _ h1.1 h1.2.1)
        · rename_i st1 e heq
          rw [heq] at h1
          exact h1
      · exact ⟨hq, he, rfl, rfl⟩

theorem redraw_err (U : String) (st : EngineState) (c : Bool)
    (hq : QueueUrl st.icons) (he : hasErroredFor st U = true) :
    ErrPreserved U st (redraw st c).1 := by
  unfold redraw
  dsimp only
  split
  · exact ⟨hq, he, rfl, rfl⟩
  · rename_i v hv
    have h1 := redrawLoop_err U v
      (List.filter (fun b => boxIntersects (queryBoxOfView v) b) st.positionsTree)
      { st with redrawCount := st.redrawCount + 1 } [] hq he
    split
    · rename_i st1 acc u4 heq
      rw [heq] at h1
      exact ⟨h1.1, h1.2.1, h1.2.2.1, h1.2.2.2⟩
    · rename_i st1 acc e heq
      rw [heq] at h1
      exact h1

theorem removeMarker_err (U : String) (st : EngineState) (m : Marker)
    (hq : QueueUrl st.icons) (he : hasErroredFor st U = true) :
    ErrPreserved U st (removeMarker st m).1 := by
  unfold removeMarker
  dsimp only
  split
  · exact ⟨hq, he, rfl, rfl⟩
  · rename_i v hv
    split
    · exact redraw_err U
        { st with positionsTree := removeFirstById st.positionsTree m.id } true hq he
    · exact ⟨hq, he, rfl, rfl⟩

theorem removeMarkers_err (U : String) (st : EngineState) (ms : List Marker)
    (hq : QueueUrl st.icons) (he : hasErroredFor st U = true) :
    ErrPreserved U st (removeMarkers st ms).1 := by
  unfold removeMarkers
  dsimp only
  split
  · exact ⟨hq, he, rfl, rfl⟩
  · rename_i v hv
    split
    · exact redraw_err U
        { st with positionsTree := (removeLoop v st.positionsTree false ms).1 } true hq he
    · exact ⟨hq, he, rfl, rfl⟩

theorem clearAll_err (U : String) (st : EngineState)
    (hq : QueueUrl st.icons) (he : hasErroredFor st U = true) :
    ErrPreserved U st (clearAll st).1 := by
  unfold clearAll
  exact redraw_err U
    { st with positionsTree := [], markersTree := [], layers := [] } true hq he

theorem flushLoop_err (U u2 : String) (v : MapView) (hne : u2 ≠ U) :
    ∀ (els : List QElem) (st : EngineState),
      QueueUrl st.icons → hasErroredFor st U = true →
      (∀ e ∈ els, iconUrlOf e.marker = some u2) →
      ErrPreserved U st (flushLoop v st els).1
  | [], st, hq, he, _ => ⟨hq, he, rfl, rfl⟩
  | e :: rest, st, hq, he, hall => by
    have hneq : ((iconUrlOf e.marker).getD "" == U) = false := by
      rw [hall e (by simp)]
      simpa using hne
    have h1 := drawImage_err U st e.marker (v.proj e.marker.lat e.marker.lng).1
      (v.proj e.marker.lat e.marker.lng).2 hq he hneq
    unfold flushLoop
    split
    · rename_i st1 u4 heq
      rw [heq] at h1
      refine h1.comp (flushLoop_err U u2 v hne rest st1 h1.1 h1.2.1 ?_)
      intro e2 he2
      exact hall e2 (by simp [he2])
    · rename_i st1 err heq
      rw [heq] at h1
      exact h1

theorem fireLoad_err (U u2 : String) (st : EngineState)
    (hq : QueueUrl st.icons) (he : hasErroredFor st U = true) (hne : u2 ≠ U) :
    ErrPreserved U st (fireLoad st u2).1 := by
  unfold fireLoad
  split
  · exact ⟨hq, he, rfl, rfl⟩
  · rename_i entry heq
    have hq1 : QueueUrl (setKey st.icons u2 { entry with isLoaded := true }) := by
      intro p hp e2 he2
      rcases mem_setKey st.icons u2 _ p hp with hold | hnew
      · exact hq p hold e2 he2
      · subst hnew
        simp only at he2
        exact hq (u2, entry) (lookupA_mem st.icons u2 entry heq) e2 he2
    have he1 : (match lookupA U (setKey st.icons u2 { entry with isLoaded := true }) with
        | some e => e.hasErrored
        | none => false) = true := by
      rw [lookupA_setKey_ne st.icons U u2 _ hne]
      unfold hasErroredFor at he
      exact he
    dsimp only
    split
    · exact ⟨hq1, he1, rfl, rfl⟩
    · rename_i v hv
      have hall : ∀ e ∈ entry.elements, iconUrlOf e.marker = some u2 :=
        fun e he2 => hq (u2, entry) (lookupA_mem st.icons u2 entry heq) e he2
      have h2 := flushLoop_err U u2 v hne entry.elements
        { st with icons := setKey st.icons u2 { entry with isLoaded := true } } hq1 he1 hall
      exact ⟨h2.1, h2.2.1, h2.2.2.1, h2.2.2.2⟩

theorem fireError_err (U u2 : String) (st : EngineState)
    (hq : QueueUrl st.icons) (he : hasErroredFor st U = true) (hne : u2 ≠ U) :
    ErrPreserved U st (fireError st u2).1 := by
  unfold fireError
  split
  · exact ⟨hq, he, rfl, rfl⟩
  · rename_i entry heq
    refine ⟨?_, ?_, rfl, ?_⟩
    · intro p hp e2 he2
      rcases mem_setKey st.icons u2 _ p hp with hold | hnew
      · exact hq p hold e2 he2
      · subst hnew
        simp only at he2
        exact hq (u2, entry) (lookupA_mem st.icons u2 entry heq) e2 he2
    · show (match lookupA U (setKey st.icons u2 { entry with hasErrored := true }) with
        | some e => e.hasErrored
        | none => false) = true
      rw [lookupA_setKey_ne st.icons U u2 _ hne]
      unfold hasErroredFor at he
      exact he
    · unfold errorsFor
      show List.filter _ (st.errorsLogged ++ [LogEntry.imageLoadError u2]) = _
      rw [List.filter_append]
      simp [hne]

theorem step_err (U : String) (st : EngineState) (e : Ev)
    (hq : QueueUrl st.icons) (he : hasErroredFor st U = true)
    (hl : isLoadOf U e = false) (hf : isFailOf U e = false) :
    ErrPreserved U st (step st e) := by
  cases e with
  | addOne m => exact addMarker_err U st m hq he
  | addMany ms => exact addMarkers_err U st ms hq he
  | removeOne m => exact removeMarker_err U st m hq he
  | removeMany ms => exact removeMarkers_err U st ms hq he
  | redrawEv b => exact redraw_err U st b hq he
  | clearEv => exact clearAll_err U st hq he
  | setView v => exact ⟨hq, he, rfl, rfl⟩
  | load u =>
    have hne : u ≠ U := by simpa [isLoadOf] using hl
    exact fireLoad_err U u st hq he hne
  | fail u =>
    have hne : u ≠ U := by simpa [isFailOf] using hf
    exact fireError_err U u st hq he hne

theorem run_err (U : String) :
    ∀ (evs : List Ev) (st : EngineState),
      QueueUrl st.icons → hasErroredFor st U = true →
      (∀ e ∈ evs, isLoadOf U e = false ∧ isFailOf U e = false) →
      ErrPreserved U st (run st evs)
  | [], st, hq, he, _ => ⟨hq, he, rfl, rfl⟩
  | e :: rest, st, hq, he, hno => by
    have h1 := step_err U st e hq he (hno e (by simp)).1 (hno e (by simp)).2
    have h2 := run_err U rest (step st e) h1.1 h1.2.1
      (fun e2 he2 => hno e2 (by simp [he2]))
    exact h1.comp h2

/-!
Further fixtures and small helpers for the claim theorems.
-/

theorem screenBoxOf_marker (v : MapView) (m : Marker) : (screenBoxOf v m).marker = m := by
  unfold screenBoxOf
  split
  · split <;> rfl
  · rfl

/-- Characterization of `fireError`: sets the sticky flag and reports once. -/
theorem fireError_spec (st : EngineState) (u : String) (entry : IconEntry)
    (he : lookupA u st.icons = some entry) :
    fireError st u =
      ({ st with
          icons := setKey st.icons u { entry with hasErrored := true },
          errorsLogged := st.errorsLogged ++ [.imageLoadError u] }, .ok ()) := by
  unfold fireError
  simp only [he]

/-!
Claim theorems.
-/

/-- C1 counterexample: the claim "for every sequence of calls to
addMarker, addMarkers, removeMarker, removeMarkers the PositionIndex
entry count equals the registered marker count" is false on the code.
A single direct `addMarker` registers the marker without inserting any
PositionIndex entry (only `addMarkers` bulk-loads the trees), and
`removeMarker` deletes the PositionIndex entry while leaving the
marker registered in `_layers`. -/
theorem c1_counterexample :
    ((run (initState v0 false) [Ev.addOne m1]).positionsTree.length = 0 ∧
      (getAllMarkers (run (initState v0 false) [Ev.addOne m1])).length = 1) ∧
    ((run (initState v0 false) [Ev.addMany [m1], Ev.removeOne m1]).positionsTree.length = 0 ∧
      (getAllMarkers
        (run (initState v0 false) [Ev.addMany [m1], Ev.removeOne m1])).length = 1) := by
  decide

/-- C1 (amended): for sequences consisting solely of `addMarkers` bulk
adds of valid markers with globally distinct ids on an attached map,
the PositionIndex entry count equals the number of registered markers
returned by `getAllMarkers`. Direct `addMarker` calls register without
indexing and `removeMarker` / `removeMarkers` deindex without
unregistering, so the equality does not survive them (see the
counterexample). -/
theorem c1_amended (v : MapView) (bg : Bool) (evs : List Ev)
    (hadd : ∀ e ∈ evs, addsOnly e = true)
    (hval : ∀ e ∈ evs, ∀ m ∈ evMarkers e, validMarker m = true)
    (hnd : ((evs.map evMarkers).flatten.map Marker.id).Nodup) :
    (run (initState v bg) evs).positionsTree.length =
      (getAllMarkers (run (initState v bg) evs)).length := by
  have h := run_addsOnly v evs (initState v bg) rfl rfl hadd hval
    (by intro e he m hm; simp [initState]) hnd
  have hlen := congrArg List.length h
  simpa [getAllMarkers] using hlen

theorem c1_amended_witness :
    (∀ e ∈ [Ev.addMany [m1, m2]], addsOnly e = true) ∧
    (run (initState v0 false) [Ev.addMany [m1, m2]]).positionsTree.length =
      (getAllMarkers (run (initState v0 false) [Ev.addMany [m1, m2]])).length :=
  ⟨by decide, c1_amended v0 false [Ev.addMany [m1, m2]] (by decide) (by decide) (by decide)⟩

/-- C2: when the image load for URL `u` completes, every draw request
queued for that URL is drawn at the screen position recomputed at flush
time, i.e. at the projection of the marker's current latLng under the
map view current at flush time; the `x`, `y` captured at enqueue time
do not occur in the produced draw events. -/
theorem c2_flush_recomputes (st : EngineState) (u : String) (entry : IconEntry)
    (v : MapView)
    (hmap : st.map = some v) (he : lookupA u st.icons = some entry)
    (hready : ∀ e ∈ entry.elements, flushReadyQ st e) :
    (fireLoad st u).2 = .ok () ∧
    (fireLoad st u).1.draws =
      st.draws ++ entry.elements.map (fun e =>
        drawEventOf e.marker (v.proj e.marker.lat e.marker.lng).1
          (v.proj e.marker.lat e.marker.lng).2) := by
  obtain ⟨g0, g1, -, -⟩ := fireLoad_spec st u entry v hmap he hready
  exact ⟨g0, g1⟩

theorem c2_witness :
    (fireLoad (run (initState v0 false) [Ev.addMany [m1], Ev.setView v1]) "a.png").2 =
      .ok () ∧
    (fireLoad (run (initState v0 false) [Ev.addMany [m1], Ev.setView v1]) "a.png").1.draws =
      [⟨1, 300, 300, "a.png"⟩] :=
  have h := c2_flush_recomputes
    (run (initState v0 false) [Ev.addMany [m1], Ev.setView v1]) "a.png"
    ⟨false, false, [⟨m1, 100, 100⟩]⟩ v1 rfl (by decide) (by decide)
  ⟨h.1, h.2⟩

/-- C3 counterexample: the claim "every _drawMarker call issued while
the URL is pending is not drawn at request time and is enqueued" is
false on the code. After `addMarkers [m1]` the URL is pending and
`m1.image` is assigned; the `redraw(true)` that follows issues a second
request for `m1`, which hits the `marker.image` branch, invokes the
draw routine immediately (recorded draw event) and does not grow the
queue. -/
theorem c3_counterexample :
    ((lookupA "a.png" (run (initState v0 false) [Ev.addMany [m1]]).icons).map
      (fun e => (e.isLoaded, e.hasErrored, e.elements.length)) =
        some (false, false, 1)) ∧
    (run (initState v0 false) [Ev.addMany [m1], Ev.redrawEv true]).draws.length = 1 ∧
    ((lookupA "a.png"
        (run (initState v0 false) [Ev.addMany [m1], Ev.redrawEv true]).icons).map
      (fun e => e.elements.length) = some 1) := by
  decide

/-- C3 (amended): a `_drawMarker` request issued while the URL is
pending and whose marker has no image handle assigned yet is not drawn
at request time: it is enqueued at the tail of the pending queue, and
when the load completes the whole queue is flushed in enqueue order at
positions recomputed at flush time. (A repeated request for a marker
whose image handle is already assigned instead invokes the draw routine
immediately even while pending, and is not enqueued — see the
counterexample.) -/
theorem c3_amended (st : EngineState) (m : Marker) (x y : Int) (u : String)
    (entry : IconEntry) (v : MapView)
    (hmap : st.map = some v)
    (hu : iconUrlOf m = some u)
    (hmi : lookupA m.id st.markerImages = none)
    (he : lookupA u st.icons = some entry)
    (hnl : entry.isLoaded = false) (hner : entry.hasErrored = false)
    (hm : flushReadyMarker m = true)
    (hready : ∀ e ∈ entry.elements, flushReadyQ st e) :
    (drawMarker st m x y).2 = .ok () ∧
    (drawMarker st m x y).1.draws = st.draws ∧
    lookupA u (drawMarker st m x y).1.icons =
      some ⟨entry.isLoaded, entry.hasErrored, entry.elements ++ [⟨m, x, y⟩]⟩ ∧
    (fireLoad (drawMarker st m x y).1 u).2 = .ok () ∧
    (fireLoad (drawMarker st m x y).1 u).1.draws =
      st.draws ++ (entry.elements ++ [(⟨m, x, y⟩ : QElem)]).map (flushDrawOf v) := by
  have hdm := drawMarker_pending st m x y u entry hu hmi he hner hnl
  have hset : lookupA u (setKey st.icons u { entry with elements := entry.elements ++ [⟨m, x, y⟩] }) =
      some { entry with elements := entry.elements ++ [⟨m, x, y⟩] } :=
    lookupA_setKey_self st.icons u _
  have hready2 : ∀ e ∈ ({ entry with elements := entry.elements ++ [⟨m, x, y⟩] } : IconEntry).elements,
      flushReadyQ (drawMarker st m x y).1 e := by
    rw [hdm]
    intro e he2
    simp only [List.mem_append] at he2
    rcases he2 with hold | hnew
    · obtain ⟨hq1, hq2⟩ := hready e hold
      refine ⟨hq1, ?_⟩
      by_cases hid : e.marker.id = m.id
      · rw [hid]
        show (lookupA m.id (setKey st.markerImages m.id u)).isSome = true
        rw [lookupA_setKey_self]
        rfl
      · show (lookupA e.marker.id (setKey st.markerImages m.id u)).isSome = true
        rw [lookupA_setKey_ne st.markerImages e.marker.id m.id u (Ne.symm hid)]
        exact hq2
    · simp only [List.mem_singleton] at hnew
      rw [hnew]
      refine ⟨hm, ?_⟩
      show (lookupA m.id (setKey st.markerImages m.id u)).isSome = true
      rw [lookupA_setKey_self]
      rfl
  obtain ⟨g0, g1, -, -⟩ := fireLoad_spec (drawMarker st m x y).1 u
    { entry with elements := entry.elements ++ [⟨m, x, y⟩] } v
    (by rw [hdm]; exact hmap) (by rw [hdm]; exact hset) hready2
  refine ⟨by rw [hdm], by rw [hdm], by rw [hdm]; exact hset, g0, ?_⟩
  rw [g1, hdm]

theorem c3_amended_witness :
    (drawMarker (run (initState v0 false) [Ev.addMany [m1]]) m2 5 7).1.draws = [] ∧
    lookupA "a.png"
        (drawMarker (run (initState v0 false) [Ev.addMany [m1]]) m2 5 7).1.icons =
      some ⟨false, false, [⟨m1, 100, 100⟩, ⟨m2, 5, 7⟩]⟩ ∧
    (fireLoad (drawMarker (run (initState v0 false) [Ev.addMany [m1]]) m2 5 7).1
        "a.png").1.draws =
      [⟨1, 100, 100, "a.png"⟩, ⟨2, 101, 99, "a.png"⟩] :=
  have h := c3_amended (run (initState v0 false) [Ev.addMany [m1]]) m2 5 7 "a.png"
    ⟨false, false, [⟨m1, 100, 100⟩]⟩ v0 rfl rfl (by decide) (by decide) rfl rfl
    (by decide) (by decide)
  ⟨h.2.1, h.2.2.1, h.2.2.2.2⟩

/-- C4 counterexample: the claim "if the load for URL U fails then no
marker using U is ever drawn, neither by requests issued before the
failure nor after" is false on the code: before the failure, the
`redraw(true)` following `addMarkers [m1]` hits the `marker.image`
branch of `_drawMarker` and invokes the draw routine for `m1` (whose
URL later fails) while the image is still pending. -/
theorem c4_counterexample :
    drawsFor "a.png"
        (run (initState v0 false) [Ev.addMany [m1], Ev.redrawEv true, Ev.fail "a.png"]) =
      [⟨1, 100, 100, "a.png"⟩] ∧
    hasErroredFor
        (run (initState v0 false) [Ev.addMany [m1], Ev.redrawEv true, Ev.fail "a.png"])
        "a.png" = true ∧
    (run (initState v0 false) [Ev.addMany [m1], Ev.redrawEv true, Ev.fail "a.png"]).errorsLogged =
      [LogEntry.imageLoadError "a.png"] := by
  decide

/-- C4 (amended): when the load of URL `U` fails, exactly one
diagnostic is reported for `U`; from that point on — across any
sequence of engine operations and completions of other URLs (a browser
fires at most one completion per image, so no further `load U` /
`fail U` events occur) — the errored state is sticky, no marker using
`U` is ever drawn again, and no further diagnostics for `U` appear.
Requests that were queued before the failure are never flushed. Before
the failure, a repeated request for a marker whose image handle was
already assigned can still invoke the draw routine — see the
counterexample. -/
theorem c4_amended (U : String) (st : EngineState) (entry : IconEntry) (evs : List Ev)
    (hq : QueueUrl st.icons)
    (hent : lookupA U st.icons = some entry)
    (hno : ∀ e ∈ evs, isLoadOf U e = false ∧ isFailOf U e = false) :
    (fireError st U).1.errorsLogged = st.errorsLogged ++ [.imageLoadError U] ∧
    hasErroredFor (fireError st U).1 U = true ∧
    hasErroredFor (run (fireError st U).1 evs) U = true ∧
    drawsFor U (run (fireError st U).1 evs) = drawsFor U (fireError st U).1 ∧
    errorsFor U (run (fireError st U).1 evs) = errorsFor U (fireError st U).1 := by
  have hfe := fireError_spec st U entry hent
  have he1 : hasErroredFor (fireError st U).1 U = true := by
    rw [hfe]
    show (match lookupA U (setKey st.icons U { entry with hasErrored := true }) with
      | some e => e.hasErrored
      | none => false) = true
    rw [lookupA_setKey_self]
  have hq1 : QueueUrl (fireError st U).1.icons := by
    rw [hfe]
    intro p hp e2 he2
    rcases mem_setKey st.icons U _ p hp with hold | hnew
    · exact hq p hold e2 he2
    · subst hnew
      simp only at he2
      exact hq (U, entry) (lookupA_mem st.icons U entry hent) e2 he2
  have hrun := run_err U evs (fireError st U).1 hq1 he1 hno
  exact ⟨by rw [hfe], he1, hrun.2.1, hrun.2.2.1, hrun.2.2.2⟩

theorem c4_amended_witness :
    QueueUrl (run (initState v0 false) [Ev.addMany [m1]]).icons ∧
    hasErroredFor
      (run (fireError (run (initState v0 false) [Ev.addMany [m1]]) "a.png").1
        [Ev.redrawEv true, Ev.addMany [m2]]) "a.png" = true ∧
    drawsFor "a.png"
      (run (fireError (run (initState v0 false) [Ev.addMany [m1]]) "a.png").1
        [Ev.redrawEv true, Ev.addMany [m2]]) =
      drawsFor "a.png" (fireError (run (initState v0 false) [Ev.addMany [m1]]) "a.png").1 :=
  have h := c4_amended "a.png" (run (initState v0 false) [Ev.addMany [m1]])
    ⟨false, false, [⟨m1, 100, 100⟩]⟩ [Ev.redrawEv true, Ev.addMany [m2]]
    (by decide) (by decide) (by decide)
  ⟨by decide, h.2.2.1, h.2.2.2.1⟩

/-- C5 counterexample: the claim "after redraw(true) the ScreenIndex
contains exactly one entry per marker whose geographic position lies
within the current viewport" is false on the code: a marker registered
through direct `addMarker` has no PositionIndex entry, so after
`redraw(true)` it is registered, inside the viewport, and yet has zero
ScreenIndex entries. -/
theorem c5_counterexample :
    (run (initState v0 false) [Ev.addOne m1, Ev.redrawEv true]).markersTree = [] ∧
    lookupA 1 (run (initState v0 false) [Ev.addOne m1, Ev.redrawEv true]).layers = some m1 ∧
    viewContains v0 m1.lat m1.lng = true := by
  decide

/-- C5 (amended): after `redraw(true)` on an attached map (markers in
the index carrying full icon data), the ScreenIndex is exactly the
image of the PositionIndex entries whose box intersects the current
viewport: one screen box per such entry in order, zero entries for
out-of-viewport entries, and all entries from the prior redraw
discarded. Markers registered without a PositionIndex entry get no
ScreenIndex entry even when they lie inside the viewport. -/
theorem c5_amended (st : EngineState) (v : MapView) (hmap : st.map = some v)
    (hval : ∀ b ∈ st.positionsTree.filter (fun b => boxIntersects (queryBoxOfView v) b),
      validMarker b.marker = true) :
    (redraw st true).2 = .ok () ∧
    (redraw st true).1.markersTree =
      (st.positionsTree.filter (fun b => boxIntersects (queryBoxOfView v) b)).map
        (fun b => screenBoxOf v b.marker) ∧
    (redraw st true).1.markersTree.map Box.marker =
      (st.positionsTree.filter (fun b => boxIntersects (queryBoxOfView v) b)).map
        Box.marker := by
  obtain ⟨h1, h2⟩ := redraw_markersTree st v hmap hval
  refine ⟨h1, h2, ?_⟩
  rw [h2, List.map_map]
  refine List.map_congr_left ?_
  intro b hb
  exact screenBoxOf_marker v b.marker

theorem c5_amended_witness :
    (∀ b ∈ (run (initState v0 false) [Ev.addMany [m1, m3]]).positionsTree.filter
        (fun b => boxIntersects (queryBoxOfView v0) b), validMarker b.marker = true) ∧
    (redraw (run (initState v0 false) [Ev.addMany [m1, m3]]) true).1.markersTree.map
        Box.marker = [m1] :=
  have h := c5_amended (run (initState v0 false) [Ev.addMany [m1, m3]]) v0 rfl (by decide)
  ⟨by decide, h.2.2⟩

/-- C6: for any engine state with an attached map, `removeMarker`
removes the marker's PositionIndex entry by `_leaflet_id` equality (the
first entry whose marker id matches, independently of box coordinates)
and forces exactly one `redraw(true)` precisely when the marker's
position lies within the current viewport at removal time. -/
theorem c6_remove_by_id_redraw_iff_visible (st : EngineState) (m : Marker) (v : MapView)
    (hmap : st.map = some v) :
    (removeMarker st m).1.positionsTree = removeFirstById st.positionsTree m.id ∧
    ((removeMarker st m).1.redrawCount = st.redrawCount + 1 ↔
      viewContains v m.lat m.lng = true) := by
  obtain ⟨h1, -, h3⟩ := removeMarker_spec st m v hmap
  refine ⟨h1, ?_⟩
  cases hvis : viewContains v m.lat m.lng with
  | true =>
    simp only [hvis, if_true] at h3
    exact ⟨fun _ => rfl, fun _ => h3⟩
  | false =>
    simp only [hvis, Bool.false_eq_true, if_false, Nat.add_zero] at h3
    constructor
    · intro hcontra
      rw [h3] at hcontra
      omega
    · intro hcontra
      cases hcontra

theorem c6_witness :
    ((removeMarker (run (initState v0 false) [Ev.addMany [m1]]) m1).1.positionsTree = [] ∧
      (removeMarker (run (initState v0 false) [Ev.addMany [m1]]) m1).1.redrawCount =
        (run (initState v0 false) [Ev.addMany [m1]]).redrawCount + 1) ∧
    ((removeMarker (run (initState v0 false) [Ev.addMany [m3]]) m3).1.positionsTree = [] ∧
      (removeMarker (run (initState v0 false) [Ev.addMany [m3]]) m3).1.redrawCount =
        (run (initState v0 false) [Ev.addMany [m3]]).redrawCount) :=
  have h1 := c6_remove_by_id_redraw_iff_visible
    (run (initState v0 false) [Ev.addMany [m1]]) m1 v0 rfl
  have h3 := c6_remove_by_id_redraw_iff_visible
    (run (initState v0 false) [Ev.addMany [m3]]) m3 v0 rfl
  ⟨⟨h1.1, h1.2.mpr (by decide)⟩,
   ⟨h3.1, by
      obtain ⟨-, hiff⟩ := h3
      have hnotvis : viewContains v0 m3.lat m3.lng = false := by decide
      obtain ⟨g1, -, g3⟩ := removeMarker_spec
        (run (initState v0 false) [Ev.addMany [m3]]) m3 v0 rfl
      rw [g3, hnotvis]
      rfl⟩⟩

/-- C7: for a list of requests for distinct markers sharing one
hitherto unseen icon URL, the first request starts exactly one
asynchronous image load (exactly one Image created in total), no icon
is drawn while the load is pending, and when the load completes every
one of the requested markers is drawn, in request order. -/
theorem c7_one_load_all_drawn (st : EngineState) (v : MapView) (u : String)
    (reqs : List (Marker × Int × Int))
    (hmap : st.map = some v)
    (hne : reqs ≠ [])
    (hfreshU : lookupA u st.icons = none)
    (hreq : ∀ r ∈ reqs, iconUrlOf r.1 = some u ∧ flushReadyMarker r.1 = true ∧
      lookupA r.1.id st.markerImages = none)
    (hnd : (reqs.map (fun r => r.1.id)).Nodup) :
    (requestAll st reqs).loadsStarted = st.loadsStarted ++ [u] ∧
    (requestAll st reqs).draws = st.draws ∧
    (fireLoad (requestAll st reqs) u).2 = .ok () ∧
    (fireLoad (requestAll st reqs) u).1.draws =
      st.draws ++ reqs.map (fun r => flushDrawOf v (qElemOf r)) := by
  cases reqs with
  | nil => exact absurd rfl hne
  | cons r rest =>
    obtain ⟨m, x, y⟩ := r
    obtain ⟨hu, hfr, hmi⟩ := hreq (m, x, y) (by simp)
    have hdm := drawMarker_fresh st m x y u hu hmi hfreshU
    have hstep : requestAll st ((m, x, y) :: rest) =
        requestAll (drawMarker st m x y).1 rest := rfl
    simp only [List.map_cons, List.nodup_cons] at hnd
    have he1 : lookupA u (drawMarker st m x y).1.icons =
        some ⟨false, false, [⟨m, x, y⟩]⟩ := by
      rw [hdm]
      exact lookupA_setKey_self st.icons u _
    have hreq1 : ∀ r2 ∈ rest, iconUrlOf r2.1 = some u ∧
        lookupA r2.1.id (drawMarker st m x y).1.markerImages = none := by
      intro r2 hr2
      obtain ⟨hu2, -, hmi2⟩ := hreq r2 (by simp [hr2])
      refine ⟨hu2, ?_⟩
      have hneid : m.id ≠ r2.1.id := by
        intro hcontra
        exact hnd.1 (hcontra ▸ List.mem_map_of_mem (fun r => r.1.id) hr2)
      rw [hdm]
      show lookupA r2.1.id (setKey st.markerImages m.id u) = none
      rw [lookupA_setKey_ne st.markerImages r2.1.id m.id u hneid]
      exact hmi2
    obtain ⟨g1, g2, g3, g4, g5, g6⟩ := requestAll_pending u rest
      (drawMarker st m x y).1 [⟨m, x, y⟩] he1 hreq1 hnd.2
    rw [hstep]
    have hload : (requestAll (drawMarker st m x y).1 rest).loadsStarted =
        st.loadsStarted ++ [u] := by
      rw [g3, hdm]
    have hdraws : (requestAll (drawMarker st m x y).1 rest).draws = st.draws := by
      rw [g2, hdm]
    have hmapF : (requestAll (drawMarker st m x y).1 rest).map = some v := by
      rw [g4, hdm]
      exact hmap
    have hreadyF : ∀ e ∈ (([⟨m, x, y⟩] : List QElem) ++ rest.map qElemOf),
        flushReadyQ (requestAll (drawMarker st m x y).1 rest) e := by
      intro e he2
      rcases List.mem_append.mp he2 with hh | ht
      · simp only [List.mem_singleton] at hh
        subst hh
        refine ⟨hfr, ?_⟩
        have hbase : lookupA m.id (drawMarker st m x y).1.markerImages = some u := by
          rw [hdm]
          exact lookupA_setKey_self st.markerImages m.id u
        rw [g5 m.id u hbase]
        rfl
      · obtain ⟨r2, hr2, hre⟩ := List.mem_map.mp ht
        obtain ⟨-, hfr2, -⟩ := hreq r2 (by simp [hr2])
        subst hre
        refine ⟨hfr2, ?_⟩
        show (lookupA r2.1.id
          (requestAll (drawMarker st m x y).1 rest).markerImages).isSome = true
        rw [g6 r2 hr2]
        rfl
    obtain ⟨f0, f1, -, -⟩ := fireLoad_spec (requestAll (drawMarker st m x y).1 rest) u
      ⟨false, false, [⟨m, x, y⟩] ++ rest.map qElemOf⟩ v hmapF (by simpa using g1) hreadyF
    refine ⟨hload, hdraws, f0, ?_⟩
    rw [f1, hdraws]
    simp [qElemOf, List.map_map]

theorem c7_witness :
    (requestAll (initState v0 false) [(m1, 0, 0), (m2, 1, 1)]).loadsStarted = ["a.png"] ∧
    (requestAll (initState v0 false) [(m1, 0, 0), (m2, 1, 1)]).draws = [] ∧
    (fireLoad (requestAll (initState v0 false) [(m1, 0, 0), (m2, 1, 1)]) "a.png").1.draws =
      [⟨1, 100, 100, "a.png"⟩, ⟨2, 101, 99, "a.png"⟩] :=
  have h := c7_one_load_all_drawn (initState v0 false) v0 "a.png"
    [(m1, 0, 0), (m2, 1, 1)] rfl (by decide) (by decide) (by decide) (by decide)
  ⟨h.1, h.2.1, h.2.2.2⟩

/-- C8 counterexample: the claim "addMarker rejects by logging and
performing no state change when explicit pixel size and anchor offset
are absent" is false on the code for the anchor/size half: a marker
with an icon lacking its anchor makes `addMarker` throw a synchronous
exception without logging anything (the logged no-op rejection only
covers a wrong pane or a missing icon). -/
theorem c8_counterexample :
    (addMarker (initState v0 false) mNoAnchor).1.errorsLogged = [] ∧
    (addMarker (initState v0 false) mNoAnchor).1.layers = [] ∧
    (addMarker (initState v0 false) mNoAnchor).1.positionsTree = [] ∧
    (addMarker (initState v0 false) mNoAnchor).1.draws = [] ∧
    errOf (addMarker (initState v0 false) mNoAnchor).2 =
      some "ERROR: One or more icon options properties are undefined." := by
  decide

/-- C8 (amended): `addMarker` validates its marker synchronously and
performs no registration, no draw and no index mutation on a rejected
marker; the two failure modes differ: a wrong pane or missing icon is
rejected with a `console.error` log and a normal return, while an icon
lacking its anchor or size raises a synchronous exception without
logging. -/
theorem c8_amended (st : EngineState) (m : Marker) :
    ((m.pane ≠ "markerPane" ∨ m.icon = none) →
      addMarker st m =
        ({ st with errorsLogged := st.errorsLogged ++ [.notAMarker] }, .ok none)) ∧
    (∀ v ic, st.map = some v → m.pane = "markerPane" → m.icon = some ic →
      (ic.iconAnchor = none ∨ ic.iconSize = none) →
      addMarker st m =
        (st, .error "ERROR: One or more icon options properties are undefined.")) := by
  constructor
  · intro h
    unfold addMarker
    rw [if_pos h]
  · intro v ic hmap hpane hic hmiss
    have hcond : ¬(m.pane ≠ "markerPane" ∨ m.icon = none) := by simp [hpane, hic]
    unfold addMarker
    rw [if_neg hcond]
    simp only [hmap, hic]
    rcases hmiss with ha | hs
    · rw [ha]
    · rw [hs]
      cases ha2 : ic.iconAnchor <;> simp

theorem c8_amended_witness :
    addMarker (initState v0 false) mNoIcon =
      ({ initState v0 false with errorsLogged := [.notAMarker] }, .ok none) ∧
    addMarker (initState v0 false) mNoAnchor =
      (initState v0 false, .error "ERROR: One or more icon options properties are undefined.") :=
  ⟨(c8_amended (initState v0 false) mNoIcon).1 (Or.inr rfl),
   (c8_amended (initState v0 false) mNoAnchor).2 v0
     { url := some "b.png", iconSize := some (32, 32), iconAnchor := none }
     rfl rfl rfl (Or.inl rfl)⟩

/-- C9: hash-based halo color generation is deterministic, across the
`_colorMap` memoization included: under a color map whose entries were
produced by the generator (true of every reachable map, starting from
the empty one), an evaluation returns exactly
`generateDynamicHexcode url`, the invariant is preserved by the store,
and a second evaluation of the same URL returns the same string. -/
theorem c9_color_deterministic (cm : List (String × String)) (u : String)
    (h : GoodCM cm) :
    (getColor cm u).1 = generateDynamicHexcode u ∧
    GoodCM (getColor cm u).2 ∧
    (getColor (getColor cm u).2 u).1 = (getColor cm u).1 := by
  have key : ∀ (cm2 : List (String × String)), GoodCM cm2 →
      (getColor cm2 u).1 = generateDynamicHexcode u ∧ GoodCM (getColor cm2 u).2 := by
    intro cm2 h2
    have hstore : GoodCM (setKey cm2 u (generateDynamicHexcode u)) := by
      intro p hp
      rcases mem_setKey cm2 u _ p hp with hold | hnew
      · exact h2 p hold
      · rw [hnew]
    unfold getColor
    cases hl : lookupA u cm2 with
    | none => exact ⟨rfl, hstore⟩
    | some c =>
      have hc : c = generateDynamicHexcode u := h2 (u, c) (lookupA_mem cm2 u c hl)
      dsimp only
      by_cases hce : c = ""
      · rw [if_pos hce]
        exact ⟨rfl, hstore⟩
      · rw [if_neg hce]
        exact ⟨hc, h2⟩
  obtain ⟨h1, h2⟩ := key cm h
  exact ⟨h1, h2, (key _ h2).1.trans h1.symm⟩

theorem c9_witness :
    GoodCM [] ∧
    (getColor [] "a.png").1 = generateDynamicHexcode "a.png" ∧
    (getColor (getColor [] "a.png").2 "a.png").1 = (getColor [] "a.png").1 :=
  ⟨by decide, (c9_color_deterministic [] "a.png" (by decide)).1,
   (c9_color_deterministic [] "a.png" (by decide)).2.2⟩

/-- C10: `removeMarker` (and `removeMarkers`) leave the registered
marker set untouched: `_layers` is unchanged, so `getAllMarkers` still
returns the marker and `getBounds` still includes it; only the
PositionIndex entry with the marker's id is removed. -/
theorem c10_remove_frame (st : EngineState) (m : Marker) (ms : List Marker) (v : MapView)
    (hmap : st.map = some v) :
    (removeMarker st m).1.layers = st.layers ∧
    getAllMarkers (removeMarker st m).1 = getAllMarkers st ∧
    getBounds (removeMarker st m).1 = getBounds st ∧
    lookupA m.id (removeMarker st m).1.layers = lookupA m.id st.layers ∧
    (removeMarker st m).1.positionsTree = removeFirstById st.positionsTree m.id ∧
    (removeMarkers st ms).1.layers = st.layers ∧
    getBounds (removeMarkers st ms).1 = getBounds st := by
  obtain ⟨h1, h2, -⟩ := removeMarker_spec st m v hmap
  obtain ⟨g1, -⟩ := removeMarkers_spec st ms v hmap
  exact ⟨h2, h2, getBounds_congr st _ h2, by rw [h2], h1, g1,
    getBounds_congr st _ g1⟩

theorem c10_witness :
    (removeMarker (run (initState v0 false) [Ev.addMany [m1]]) m1).1.layers = [(1, m1)] ∧
    getBounds (removeMarker (run (initState v0 false) [Ev.addMany [m1]]) m1).1 =
      getBounds (run (initState v0 false) [Ev.addMany [m1]]) ∧
    (removeMarker (run (initState v0 false) [Ev.addMany [m1]]) m1).1.positionsTree = [] :=
  have h := c10_remove_frame (run (initState v0 false) [Ev.addMany [m1]]) m1 [m1] v0 rfl
  ⟨h.1, h.2.2.1, h.2.2.2.2.1⟩

end CanvasLayer
